import Mathlib

/-!
# Adafruit_SSD1322: the dirty-window flush `display()`, `begin()`, `invertDisplay()`

A shallow embedding of `Adafruit_SSD1322::display`, `begin` and `invertDisplay`
(src/Adafruit_SSD1322.cpp) and of the state they read and write.  The driver talks to a
transport (I2C or SPI); every call that leaves the driver is recorded as an `Event`, so a
run of `display()` is a list of events together with the driver state it leaves behind.

Machine integers: `int16_t` fields are `Int`, the unsigned 8/16-bit locals are `Nat`
obtained through `toUInt8` / `toUInt16` (reduction modulo 2^8 / 2^16); intermediate
arithmetic is done in `Int`, as C does after integer promotion (an `int` wider than 16
bits is assumed, so that `WIDTH - 1` and `HEIGHT - 1` cannot overflow).

Loops: both loops of `display()` can fail to terminate, so they carry fuel.  A loop that
runs out of fuel returns the events emitted so far and the flag `false`.
-/

namespace Adafruit_SSD1322

/-! ## Machine integers -/

/-- Conversion of an integer value to `uint8_t`. -/
def toUInt8 (v : Int) : Nat := (v % 256).toNat

/-- Conversion of an integer value to `uint16_t`. -/
def toUInt16 (v : Int) : Nat := (v % 65536).toNat

/-- Conversion of an integer value to `int16_t` (two's complement wrap). -/
def toInt16 (v : Int) : Int := (v + 32768) % 65536 - 32768

/-! ## Driver state and transport -/

/-- The part of `Adafruit_I2CDevice` that `display()` depends on: what `maxBufferSize()`
reports and whether a `write` succeeds. -/
structure I2CDevice where
  maxBufferSize : Nat
  writeOk : Bool

/-- The part of `Adafruit_SPIDevice` that matters here: whether a `write` succeeds. -/
structure SPIDevice where
  writeOk : Bool

/-- The fields of the driver object (inherited from `Adafruit_GrayOLED` / `Adafruit_GFX`)
that `display()` reads or writes, and the private field `page_offset` that `begin()`
writes.  `buffer` is the memory reachable from the `buffer` pointer, indexed by byte
offset.  `i2c_dev = none` is the null pointer: the SPI case. -/
structure Driver where
  WIDTH : Int
  HEIGHT : Int
  buffer : Nat → Nat
  window_x1 : Int
  window_y1 : Int
  window_x2 : Int
  window_y2 : Int
  i2c_dev : Option I2CDevice
  spi_dev : Option SPIDevice
  i2c_preclk : Nat
  i2c_postclk : Nat
  dcPin : Int
  page_offset : Int := 0

/-- Calls that leave the driver, in the order they are made.  `ptr` of a data write is the
offset of the pointer argument from `buffer`. -/
inductive Event where
  | yield
  | setSpeed (hz : Nat)
  | oled_commandAndArgsList (c : List Nat)
  | oled_command (c : Nat)
  | i2c_write (ptr len dc_byte : Nat)
  | digitalWrite (pin : Int) (high : Bool)
  | spi_write (ptr len : Nat)
  | _init (addr : Nat) (reset : Bool)
  | delay (ms : Nat)
  deriving DecidableEq, Repr

/-- Whether a write on the active transport succeeds. -/
def busWriteOk (d : Driver) : Bool :=
  match d.i2c_dev with
  | some dev => dev.writeOk
  | none =>
    match d.spi_dev with
    | some dev => dev.writeOk
    | none => false

/-- Modelled from the spec: the base-layer helper `oled_commandAndArgsList(table, n)` is not
among the sources.  Per the spec it sends a table of `(count, opcode, args...)` records and
reports a transport write failure to its caller as a boolean.  The call is recorded as one
event carrying the table. -/
def oled_commandAndArgsList (d : Driver) (c : List Nat) : Bool × List Event :=
  (busWriteOk d, [Event.oled_commandAndArgsList c])

/-- Modelled from the spec: the base-layer helper `oled_command(c)` is not among the
sources.  Per the spec it writes the single command byte `c` and reports a transport write
failure as a boolean. -/
def oled_command (d : Driver) (c : Nat) : Bool × List Event :=
  (busWriteOk d, [Event.oled_command c])

/-! ## `display()`: locals -/

/-- Source: `uint8_t bytes_per_row = WIDTH / 2;` -/
def bytes_per_row (d : Driver) : Nat := toUInt8 (Int.tdiv d.WIDTH 2)

/-- Source: `uint8_t maxbuff = 128; if (i2c_dev) maxbuff = i2c_dev->maxBufferSize() - 1;`
(the `size_t` subtraction wraps modulo a multiple of 256, so the 8-bit result is
`(maxBufferSize - 1) mod 256` also when `maxBufferSize()` is 0). -/
def maxbuff (d : Driver) : Nat :=
  match d.i2c_dev with
  | some dev => toUInt8 ((dev.maxBufferSize : Int) - 1)
  | none => 128

/-- Source: `uint16_t x_start = min(WIDTH-1, window_x1);` -/
def x_start (d : Driver) : Nat := toUInt16 (min (d.WIDTH - 1) d.window_x1)

/-- Source: `uint16_t x_end = max(0, window_x2);` -/
def x_end (d : Driver) : Nat := toUInt16 (max 0 d.window_x2)

/-- Source: `uint8_t col_start = (uint8_t)(x_start/4);` -/
def col_start (d : Driver) : Nat := toUInt8 ((x_start d : Int) / 4)

/-- Source: `uint8_t col_end = (uint8_t)(x_end/4);` -/
def col_end (d : Driver) : Nat := toUInt8 ((x_end d : Int) / 4)

/-- Source: `uint8_t row_start = (uint8_t) min((int16_t)(HEIGHT-1), (int16_t)window_y1);` -/
def row_start (d : Driver) : Nat :=
  toUInt8 (min (toInt16 (d.HEIGHT - 1)) (toInt16 d.window_y1))

/-- Source: `uint8_t row_end = (uint8_t) max((int16_t)0, (int16_t)window_y2);` -/
def row_end (d : Driver) : Nat := toUInt8 (max (toInt16 0) (toInt16 d.window_y2))

/-- Source: the array `cmd[]`: the row-window record then the column-window record, the
column bounds with the panel offset 28 added and cast to `uint8_t`. -/
def cmd (d : Driver) : List Nat :=
  [3, 0x75, row_start d, row_end d,
   3, 0x15, toUInt8 (28 + (col_start d : Int)), toUInt8 (28 + (col_end d : Int))]

/-- Source: `uint8_t bytes_remaining = (col_end-col_start)*2+2;` -/
def rowBytes (d : Driver) : Nat :=
  toUInt8 (((col_end d : Int) - (col_start d : Int)) * 2 + 2)

/-- Source: `ptr = buffer + (uint16_t)row * (uint16_t)bytes_per_row; ptr += col_start*2;`
as an offset from `buffer` (both factors are below 256, so the product does not wrap). -/
def rowPtr (d : Driver) (row : Nat) : Nat := row * bytes_per_row d + col_start d * 2

/-! ## `display()`: loops and body -/

/-- One data write of `to_write` bytes at `ptr`: on I2C a write prefixed with the
data/command byte `dc_byte = 0x40`, on SPI the DC pin raised and then the write. -/
def dataWrite (d : Driver) (ptr to_write : Nat) : List Event :=
  match d.i2c_dev with
  | some _ => [Event.i2c_write ptr to_write 0x40]
  | none => [Event.digitalWrite d.dcPin true, Event.spi_write ptr to_write]

/-- Source: `while (bytes_remaining) { to_write = min(bytes_remaining, maxbuff); write;
ptr += to_write; bytes_remaining -= to_write; yield(); }`.  Returns the events and whether
the loop finished within the fuel. -/
def chunkLoop (d : Driver) : Nat → Nat → Nat → List Event × Bool
  | 0, _, bytes_remaining => ([], decide (bytes_remaining = 0))
  | fuel + 1, ptr, bytes_remaining =>
    if bytes_remaining = 0 then ([], true)
    else
      let to_write := min bytes_remaining (maxbuff d)
      let r := chunkLoop d fuel (ptr + to_write)
        (toUInt8 ((bytes_remaining : Int) - (to_write : Int)))
      (dataWrite d ptr to_write ++ Event.yield :: r.1, r.2)

/-- Source: `for (uint8_t row = row_start; row <= row_end; row++) { ... }`, started at
`row`; `row++` wraps at 8 bits.  Every chunk loop gets `chunkFuel` iterations. -/
def rowLoop (d : Driver) (chunkFuel : Nat) : Nat → Nat → List Event × Bool
  | 0, row => ([], decide (row_end d < row))
  | fuel + 1, row =>
    if row ≤ row_end d then
      let c := chunkLoop d chunkFuel (rowPtr d row) (rowBytes d)
      if c.2 then
        let r := rowLoop d chunkFuel fuel (toUInt8 ((row : Int) + 1))
        (c.1 ++ r.1, r.2)
      else (c.1, false)
    else ([], true)

/-- Source: `if (i2c_dev) i2c_dev->setSpeed(hz);` -/
def setSpeed (d : Driver) (hz : Nat) : List Event :=
  match d.i2c_dev with
  | some _ => [Event.setSpeed hz]
  | none => []

/-- Events of `display()` up to the row loop: the yield, the burst clock, the window
table and the begin-write command 0x5C.  The booleans returned by the two command helpers
are dropped, as in the source. -/
def displayHead (d : Driver) : List Event :=
  Event.yield :: setSpeed d d.i2c_preclk
    ++ (oled_commandAndArgsList d (cmd d)).2 ++ (oled_command d 0x5c).2

/-- Source: `// reset dirty window`. -/
def resetWindow (d : Driver) : Driver :=
  { d with window_x1 := 1024, window_y1 := 1024, window_x2 := -1, window_y2 := -1 }

/-- The function `Adafruit_SSD1322::display()` (it returns `void`).  Result: the events
emitted, and the driver state after the call when the call returns within the fuel
(`none` when a loop ran out of fuel).  The unused local `count` is left out. -/
def display (fuel : Nat) (d : Driver) : List Event × Option Driver :=
  let rows := rowLoop d fuel fuel (row_start d)
  if rows.2 then
    (displayHead d ++ rows.1 ++ setSpeed d d.i2c_postclk, some (resetWindow d))
  else (displayHead d ++ rows.1, none)

/-! ## Reading a trace -/

/-- The buffer bytes `buffer[ptr], ..., buffer[ptr+len-1]`. -/
def bufferBytes (buffer : Nat → Nat) (ptr len : Nat) : List Nat :=
  (List.range' ptr len).map buffer

/-- The pointer offset and length of a data write; `none` for any other event. -/
def dataRange : Event → Option (Nat × Nat)
  | Event.i2c_write ptr len _ => some (ptr, len)
  | Event.spi_write ptr len => some (ptr, len)
  | _ => none

/-- The data writes of a trace, in emission order, as (offset, length). -/
def dataWrites (tr : List Event) : List (Nat × Nat) := tr.filterMap dataRange

/-- The payloads of all data writes of a trace, concatenated in emission order. -/
def dataPayload (buffer : Nat → Nat) (tr : List Event) : List Nat :=
  (dataWrites tr).flatMap (fun w => bufferBytes buffer w.1 w.2)

/-- Modelled from the spec: the record format of a command table, `(count, opcode,
args...)` with `count` the number of bytes that follow in the record (as in the tables of
the source: `3, 0x75, row_start, row_end`).  Splits a table into its records. -/
def commandRecords : Nat → List Nat → List (List Nat)
  | 0, _ => []
  | _ + 1, [] => []
  | k + 1, n :: rest => rest.take n :: commandRecords k (rest.drop n)

/-- The commands (opcode followed by its arguments) an event sends. -/
def commandsOf : Event → List (List Nat)
  | Event.oled_commandAndArgsList c => commandRecords c.length c
  | Event.oled_command c => [[c]]
  | _ => []

/-- The commands of a trace, in emission order. -/
def commands (tr : List Event) : List (List Nat) := tr.flatMap commandsOf

/-- The clock rates set by a trace, in emission order. -/
def speeds (tr : List Event) : List Nat :=
  tr.filterMap (fun e => match e with | Event.setSpeed hz => some hz | _ => none)

/-- The empty dirty region left behind by `display()`. -/
def windowEmpty (d : Driver) : Prop :=
  d.window_x1 = 1024 ∧ d.window_y1 = 1024 ∧ d.window_x2 = -1 ∧ d.window_y2 = -1

instance (d : Driver) : Decidable (windowEmpty d) := by
  unfold windowEmpty; infer_instance

/-- A 256x64 panel on SPI with the given dirty region; the buffer byte at offset `i` is
`i mod 256`. -/
def spiPanel (x1 y1 x2 y2 : Int) : Driver :=
  { WIDTH := 256, HEIGHT := 64, buffer := fun i => i % 256,
    window_x1 := x1, window_y1 := y1, window_x2 := x2, window_y2 := y2,
    i2c_dev := none, spi_dev := some ⟨true⟩,
    i2c_preclk := 400000, i2c_postclk := 100000, dcPin := 9 }

/-- A 128x64 panel on I2C whose device reports `maxBufferSize() = m`. -/
def i2cPanel (m : Nat) (x1 y1 x2 y2 : Int) : Driver :=
  { WIDTH := 128, HEIGHT := 64, buffer := fun i => i % 256,
    window_x1 := x1, window_y1 := y1, window_x2 := x2, window_y2 := y2,
    i2c_dev := some ⟨m, true⟩, spi_dev := none,
    i2c_preclk := 400000, i2c_postclk := 100000, dcPin := -1 }


/-- The dirty region of `d` is the rectangle `(x1, y1) .. (x2, y2)`, it is not empty and it
lies inside the `W × H` display: `0 ≤ x1 ≤ x2 ≤ W-1` and `0 ≤ y1 ≤ y2 ≤ H-1`. -/
structure InBounds (d : Driver) (W H x1 y1 x2 y2 : Nat) : Prop where
  width : d.WIDTH = (W : Int)
  height : d.HEIGHT = (H : Int)
  wx1 : d.window_x1 = (x1 : Int)
  wy1 : d.window_y1 = (y1 : Int)
  wx2 : d.window_x2 = (x2 : Int)
  wy2 : d.window_y2 = (y2 : Int)
  x_le : x1 ≤ x2
  x_lt : x2 < W
  y_le : y1 ≤ y2
  y_lt : y2 < H

instance (d : Driver) (W H x1 y1 x2 y2 : Nat) : Decidable (InBounds d W H x1 y1 x2 y2) :=
  decidable_of_iff
    (d.WIDTH = (W : Int) ∧ d.HEIGHT = (H : Int) ∧ d.window_x1 = (x1 : Int) ∧
      d.window_y1 = (y1 : Int) ∧ d.window_x2 = (x2 : Int) ∧ d.window_y2 = (y2 : Int) ∧
      x1 ≤ x2 ∧ x2 < W ∧ y1 ≤ y2 ∧ y2 < H)
    ⟨fun ⟨a, b, c, e, f, g, h, i, j, k⟩ => ⟨a, b, c, e, f, g, h, i, j, k⟩,
     fun h => ⟨h.width, h.height, h.wx1, h.wy1, h.wx2, h.wy2, h.x_le, h.x_lt, h.y_le, h.y_lt⟩⟩

/-- Spec: the buffer bytes spanned by the address window, row-major: for each row
`y1, ..., y2` in increasing order, the bytes at offsets
`[row*(W/2) + 2*(x1/4), row*(W/2) + 2*(x2/4) + 2)`. -/
def windowBytes (buffer : Nat → Nat) (W x1 y1 x2 y2 : Nat) : List Nat :=
  (List.range' y1 (y2 - y1 + 1)).flatMap
    (fun row => bufferBytes buffer (row * (W / 2) + 2 * (x1 / 4)) ((x2 / 4 - x1 / 4 + 1) * 2))

/-- The events of the streaming phase: yields and data writes (an SPI write comes with the
write of the DC pin before it). -/
def isStreamEvent : Event → Bool
  | Event.yield => true
  | Event.i2c_write _ _ _ => true
  | Event.digitalWrite _ _ => true
  | Event.spi_write _ _ => true
  | _ => false

/-- The buffer offsets of the bytes sent by the data writes of a trace, in emission
order. -/
def sentOffsets (tr : List Event) : List Nat :=
  (dataWrites tr).flatMap (fun w => List.range' w.1 w.2)

/-- The states on which `display()` returns: there is no row to send, or the last row is
below 255 and the chunk loop of a row finishes (chunk limit at least 1, or no byte to send
in a row). -/
def flushReturns (d : Driver) : Prop :=
  row_end d < row_start d ∨ (row_end d < 255 ∧ (1 ≤ maxbuff d ∨ rowBytes d = 0))

instance (d : Driver) : Decidable (flushReturns d) := by
  unfold flushReturns; infer_instance

/-- The dirty region of a driver state, `(window_x1, window_y1, window_x2, window_y2)`. -/
def dirtyRegion (d : Driver) : Int × Int × Int × Int :=
  (d.window_x1, d.window_y1, d.window_x2, d.window_y2)

/-- The driver `d` on a transport whose writes succeed (`ok = true`) or fail
(`ok = false`); nothing else changes. -/
def withWriteOk (d : Driver) (ok : Bool) : Driver :=
  { d with
    i2c_dev := d.i2c_dev.map (fun dev => { dev with writeOk := ok }),
    spi_dev := d.spi_dev.map (fun _ => { writeOk := ok }) }

/-! ## `begin()` and `invertDisplay()` -/

/-- Conversion of an integer value to `size_t` (a 32-bit `size_t` is assumed). -/
def toSizeT (v : Int) : Nat := (v % 4294967296).toNat

/-- Source: all three constructors pass 4 as the bits per pixel to `Adafruit_GrayOLED`. -/
def _bpp : Nat := 4

/-- Source: the table `init_256x64` of `begin()`, verbatim. -/
def init_256x64 : List Nat :=
  [2, 0xfd, 0x12,
   1, 0xae,
   2, 0xb3, 0x91,
   2, 0xca, 0x3f,
   2, 0xa2, 0x00,
   2, 0xa1, 0x00,
   3, 0xa0, 0x06, 0x11,
   2, 0xab, 0x01,
   3, 0xb4, 0xa0, 0x05 ||| 0xfd,
   2, 0xc1, 0x9f,
   2, 0xc7, 0x0f,
   1, 0xb9,
   2, 0xb1, 0xe2,
   3, 0xd1, 0x82 ||| 0x20, 0x20,
   2, 0xbb, 0x1f,
   2, 0xb6, 0x08,
   2, 0xbe, 0x07,
   1, 0xa6,
   1, 0xa9]

/-- The library call `memset(buffer, c, n)`: the first `n` bytes become `c`. -/
def memset (buffer : Nat → Nat) (c n : Nat) : Nat → Nat :=
  fun i => if i < n then c else buffer i

/-- Source: the byte count of the `memset` of `begin()`,
`_bpp * WIDTH * ((HEIGHT + 7) / 8)`, computed in `int` and converted to `size_t`. -/
def bufferSize (d : Driver) : Nat :=
  toSizeT ((_bpp : Int) * d.WIDTH * Int.tdiv (d.HEIGHT + 7) 8)

/-- The function `Adafruit_SSD1322::begin(addr, reset)`.  The base-layer
`Adafruit_GrayOLED::_init` is not among the sources: it is the parameter `baseInit`, which
gives the boolean it returns and the driver state it leaves.  Result: the events, the
boolean returned and the driver state after the call. -/
def begin (baseInit : Driver → Nat → Bool → Bool × Driver) (d : Driver) (addr : Nat)
    (reset : Bool) : List Event × Bool × Driver :=
  let i := baseInit d addr reset
  if !i.1 then ([Event._init addr reset], false, i.2)
  else
    let d1 := { i.2 with page_offset := 0 }
    let r := oled_commandAndArgsList d1 init_256x64
    if !r.1 then (Event._init addr reset :: r.2, false, d1)
    else
      let c := oled_command d1 0xaf
      (Event._init addr reset :: r.2 ++ Event.delay 2 :: c.2, true,
        { d1 with buffer := memset d1.buffer 0x00 (bufferSize d1) })

/-- The function `Adafruit_SSD1322::invertDisplay(i)`: `oled_command(i ? 0xa7 : 0xa6);`
with the boolean of the helper dropped.  Result: the events and the state after. -/
def invertDisplay (d : Driver) (i : Bool) : List Event × Driver :=
  ((oled_command d (if i then 0xa7 else 0xa6)).2, d)

/-! ## Reading a trace: clamping, yields, reads -/

/-- Spec: `clamp(v, lo, hi)`, the value `v` brought into `[lo, hi]`. -/
def clamp (v lo hi : Int) : Int := max lo (min v hi)

/-- Whether an event is a data write. -/
def isDataWrite (e : Event) : Bool := (dataRange e).isSome

/-- The events of the data writes `ws`, each followed by one yield. -/
def chunkBlocks (d : Driver) (ws : List (Nat × Nat)) : List Event :=
  ws.flatMap (fun w => dataWrite d w.1 w.2 ++ [Event.yield])

/-- Every data write of the trace is immediately followed by a yield, and that yield is
not followed by a second one. -/
def yieldAfterWrite : List Event → Bool
  | [] => true
  | e :: rest =>
    (if isDataWrite e then
      match rest with
      | Event.yield :: after => decide (after.head? ≠ some Event.yield)
      | _ => false
    else true) && yieldAfterWrite rest

/-- A driver as `baseInit` may leave it: on success the state unchanged, writes on the
transport succeeding or not as the state says. -/
def initOk (d : Driver) (_addr : Nat) (_reset : Bool) : Bool × Driver := (true, d)

/-- A failing `baseInit`. -/
def initFails (d : Driver) (_addr : Nat) (_reset : Bool) : Bool × Driver := (false, d)

/-! ## Lemmas on traces -/

theorem dataWrites_append (a b : List Event) :
    dataWrites (a ++ b) = dataWrites a ++ dataWrites b := by
  simp [dataWrites]

theorem dataWrites_dataWrite (d : Driver) (ptr n : Nat) :
    dataWrites (dataWrite d ptr n) = [(ptr, n)] := by
  unfold dataWrite dataWrites
  cases d.i2c_dev <;> simp [dataRange]

theorem dataWrites_setSpeed (d : Driver) (hz : Nat) : dataWrites (setSpeed d hz) = [] := by
  unfold setSpeed dataWrites
  cases d.i2c_dev <;> simp [dataRange]

theorem dataWrites_displayHead (d : Driver) : dataWrites (displayHead d) = [] := by
  unfold displayHead
  have h := dataWrites_setSpeed d d.i2c_preclk
  simp only [dataWrites] at h ⊢
  simp [oled_commandAndArgsList, oled_command, dataRange, h]

theorem bufferBytes_add (buffer : Nat → Nat) (ptr a b : Nat) :
    bufferBytes buffer ptr (a + b) = bufferBytes buffer ptr a ++ bufferBytes buffer (ptr + a) b := by
  unfold bufferBytes
  have h := List.range'_append ptr a b 1
  rw [Nat.one_mul, Nat.add_comm b a] at h
  rw [← List.map_append, h]

theorem chunkLoop_done (d : Driver) (hm : 1 ≤ maxbuff d) :
    ∀ (fuel ptr n : Nat), n ≤ fuel → n < 256 → (chunkLoop d fuel ptr n).2 = true := by
  intro fuel
  induction fuel with
  | zero => intro ptr n h0 _; simp [chunkLoop]; omega
  | succ fuel ih =>
    intro ptr n hn h256
    unfold chunkLoop
    by_cases h : n = 0
    · simp [h]
    · simp only [h, if_false]
      apply ih
      · simp only [toUInt8]; omega
      · simp only [toUInt8]; omega

theorem chunkLoop_payload (d : Driver) (buffer : Nat → Nat) (hm : 1 ≤ maxbuff d) :
    ∀ (fuel ptr n : Nat), n ≤ fuel → n < 256 →
      dataPayload buffer (chunkLoop d fuel ptr n).1 = bufferBytes buffer ptr n := by
  intro fuel
  induction fuel with
  | zero =>
    intro ptr n h0 _
    have : n = 0 := by omega
    subst this
    simp [chunkLoop, dataPayload, dataWrites, bufferBytes]
  | succ fuel ih =>
    intro ptr n hn h256
    unfold chunkLoop
    by_cases h : n = 0
    · subst h; simp [dataPayload, dataWrites, bufferBytes]
    · simp only [h, if_false]
      have hle : min n (maxbuff d) ≤ n := Nat.min_le_left _ _
      have hsub : toUInt8 ((n : Int) - ((min n (maxbuff d) : Nat) : Int)) = n - min n (maxbuff d) := by
        simp only [toUInt8]; omega
      have hrec := ih (ptr + min n (maxbuff d)) (n - min n (maxbuff d)) (by omega) (by omega)
      have hsplit := bufferBytes_add buffer ptr (min n (maxbuff d)) (n - min n (maxbuff d))
      rw [Nat.add_sub_cancel' hle] at hsplit
      rw [hsplit, ← hrec, hsub]
      simp only [dataPayload] at *
      rw [dataWrites_append, dataWrites_dataWrite]
      simp [dataWrites, dataRange]
/-! ## The locals of `display()` on an in-bounds dirty region -/

section Locals

variable {d : Driver} {W H x1 y1 x2 y2 : Nat}

theorem bytes_per_row_eq (h : InBounds d W H x1 y1 x2 y2) (hW : W ≤ 256) :
    bytes_per_row d = W / 2 := by
  have h2 : Int.tdiv (W : Int) 2 = (W : Int) / 2 :=
    Int.tdiv_eq_ediv (by omega) (by omega)
  simp only [bytes_per_row, toUInt8, h.width, h2]
  omega

theorem x_start_eq (h : InBounds d W H x1 y1 x2 y2) (hW : W ≤ 256) : x_start d = x1 := by
  have := h.x_le; have := h.x_lt
  simp only [x_start, toUInt16, h.width, h.wx1]
  omega

theorem x_end_eq (h : InBounds d W H x1 y1 x2 y2) (hW : W ≤ 256) : x_end d = x2 := by
  have := h.x_le; have := h.x_lt
  simp only [x_end, toUInt16, h.wx2]
  omega

theorem col_start_eq (h : InBounds d W H x1 y1 x2 y2) (hW : W ≤ 256) :
    col_start d = x1 / 4 := by
  have := h.x_le; have := h.x_lt
  simp only [col_start, toUInt8, x_start_eq h hW]
  omega

theorem col_end_eq (h : InBounds d W H x1 y1 x2 y2) (hW : W ≤ 256) :
    col_end d = x2 / 4 := by
  have := h.x_le; have := h.x_lt
  simp only [col_end, toUInt8, x_end_eq h hW]
  omega

theorem row_start_eq (h : InBounds d W H x1 y1 x2 y2) (hH : H ≤ 256) : row_start d = y1 := by
  have := h.y_le; have := h.y_lt
  simp only [row_start, toUInt8, toInt16, h.height, h.wy1]
  omega

theorem row_end_eq (h : InBounds d W H x1 y1 x2 y2) (hH : H ≤ 256) : row_end d = y2 := by
  have := h.y_le; have := h.y_lt
  simp only [row_end, toUInt8, toInt16, h.wy2]
  omega

theorem rowBytes_eq (h : InBounds d W H x1 y1 x2 y2) (hW : W ≤ 256) :
    rowBytes d = (x2 / 4 - x1 / 4 + 1) * 2 := by
  have := h.x_le; have := h.x_lt
  simp only [rowBytes, toUInt8, col_start_eq h hW, col_end_eq h hW]
  omega

theorem rowPtr_eq (h : InBounds d W H x1 y1 x2 y2) (hW : W ≤ 256) (row : Nat) :
    rowPtr d row = row * (W / 2) + 2 * (x1 / 4) := by
  simp only [rowPtr, bytes_per_row_eq h hW, col_start_eq h hW]
  omega

theorem rowBytes_lt (d : Driver) : rowBytes d < 256 := by
  simp only [rowBytes, toUInt8]; omega

end Locals

/-! ## The row loop -/

theorem dataPayload_append (buffer : Nat → Nat) (a b : List Event) :
    dataPayload buffer (a ++ b) = dataPayload buffer a ++ dataPayload buffer b := by
  simp [dataPayload, dataWrites_append]

/-- With a chunk limit of at least 1 and a last row below 255, the row loop started at
`row` with `k` rows to go finishes and sends those rows in order. -/
theorem rowLoop_rows (d : Driver) (buffer : Nat → Nat) (cf : Nat) (hm : 1 ≤ maxbuff d)
    (hcf : 255 ≤ cf) (hend : row_end d < 255) :
    ∀ (fuel row k : Nat), row + k = row_end d + 1 → k ≤ fuel →
      (rowLoop d cf fuel row).2 = true ∧
      dataPayload buffer (rowLoop d cf fuel row).1 =
        (List.range' row k).flatMap (fun r => bufferBytes buffer (rowPtr d r) (rowBytes d)) := by
  intro fuel
  induction fuel with
  | zero =>
    intro row k hk h0
    have : k = 0 := by omega
    subst this
    refine ⟨?_, ?_⟩
    · simp [rowLoop]; omega
    · simp [rowLoop, dataPayload, dataWrites]
  | succ fuel ih =>
    intro row k hk hf
    have hb := rowBytes_lt d
    unfold rowLoop
    by_cases hrow : row ≤ row_end d
    · have hdone := chunkLoop_done d hm cf (rowPtr d row) (rowBytes d) (by omega) hb
      have hpay := chunkLoop_payload d buffer hm cf (rowPtr d row) (rowBytes d) (by omega) hb
      have hnext : toUInt8 ((row : Int) + 1) = row + 1 := by
        simp only [toUInt8]; omega
      obtain ⟨k, rfl⟩ : ∃ j, k = j + 1 := ⟨k - 1, by omega⟩
      have hrec := ih (row + 1) k (by omega) (by omega)
      simp only [hrow, if_true, hdone, hnext]
      refine ⟨hrec.1, ?_⟩
      rw [dataPayload_append, hpay, hrec.2, List.range'_succ]
      simp
    · have : k = 0 := by omega
      subst this
      simp [hrow, dataPayload, dataWrites]

/-- The result of `display()` when the row loop finishes within the fuel. -/
theorem display_done (fuel : Nat) (d : Driver)
    (h : (rowLoop d fuel fuel (row_start d)).2 = true) :
    display fuel d =
      (displayHead d ++ (rowLoop d fuel fuel (row_start d)).1 ++ setSpeed d d.i2c_postclk,
        some (resetWindow d)) := by
  simp [display, h]

/-- The result of `display()` when the row loop runs out of fuel. -/
theorem display_stuck (fuel : Nat) (d : Driver)
    (h : (rowLoop d fuel fuel (row_start d)).2 = false) :
    display fuel d = (displayHead d ++ (rowLoop d fuel fuel (row_start d)).1, none) := by
  simp [display, h]

/-- The payload of `display()` is the payload of its row loop. -/
theorem dataPayload_display (buffer : Nat → Nat) (fuel : Nat) (d : Driver) :
    dataPayload buffer (display fuel d).1 =
      dataPayload buffer (rowLoop d fuel fuel (row_start d)).1 := by
  have h1 := dataWrites_displayHead d
  have h2 := dataWrites_setSpeed d d.i2c_postclk
  cases h : (rowLoop d fuel fuel (row_start d)).2
  · rw [display_stuck fuel d h]; simp [dataPayload, dataWrites_append, h1]
  · rw [display_done fuel d h]; simp [dataPayload, dataWrites_append, h1, h2]

theorem display_isSome (fuel : Nat) (d : Driver) :
    (display fuel d).2.isSome = (rowLoop d fuel fuel (row_start d)).2 := by
  cases h : (rowLoop d fuel fuel (row_start d)).2
  · rw [display_stuck fuel d h]; rfl
  · rw [display_done fuel d h]; rfl

/-! ## C1: chunk coverage -/

/-- C1 (chunk coverage).  For every display of width `W ≤ 256` and height `H ≤ 255`, every
dirty region with `0 ≤ x1 ≤ x2 ≤ W-1`, `0 ≤ y1 ≤ y2 ≤ H-1`, every buffer and every
effective chunk limit `maxbuff ≥ 1` (128 on SPI, the 8-bit `maxBufferSize()-1` on I2C),
`display()` returns, and the payloads of its data writes, concatenated in emission order,
are exactly the bytes of the address window, row by row from `y1` to `y2`, each row the
`(x2/4 - x1/4 + 1)*2` bytes from offset `row*(W/2) + 2*(x1/4)`. -/
theorem chunk_coverage (d : Driver) (W H x1 y1 x2 y2 fuel : Nat)
    (hb : InBounds d W H x1 y1 x2 y2) (hW : W ≤ 256) (hH : H ≤ 255)
    (hm : 1 ≤ maxbuff d) (hfuel : 256 ≤ fuel) :
    (display fuel d).2.isSome = true ∧
    dataPayload d.buffer (display fuel d).1 = windowBytes d.buffer W x1 y1 x2 y2 := by
  have hy := hb.y_le
  have hy2 := hb.y_lt
  have hrs := row_start_eq hb (by omega : H ≤ 256)
  have hre := row_end_eq hb (by omega : H ≤ 256)
  have hrows := rowLoop_rows d d.buffer fuel hm (by omega) (by omega) fuel (row_start d)
    (y2 - y1 + 1) (by omega) (by omega)
  refine ⟨by rw [display_isSome]; exact hrows.1, ?_⟩
  rw [dataPayload_display, hrows.2, hrs]
  simp only [windowBytes, rowBytes_eq hb hW, rowPtr_eq hb hW]

/-- C1 at a concrete input: a 256x64 SPI panel, dirty region (5,1)..(17,2): two rows of
eight bytes, starting at offsets 130 and 258. -/
theorem chunk_coverage_witness :
    InBounds (spiPanel 5 1 17 2) 256 64 5 1 17 2 ∧
    dataPayload (spiPanel 5 1 17 2).buffer (display 256 (spiPanel 5 1 17 2)).1
      = [130, 131, 132, 133, 134, 135, 136, 137, 2, 3, 4, 5, 6, 7, 8, 9] := by
  have hb : InBounds (spiPanel 5 1 17 2) 256 64 5 1 17 2 :=
    ⟨rfl, rfl, rfl, rfl, rfl, rfl, by decide, by decide, by decide, by decide⟩
  refine ⟨hb, ?_⟩
  rw [(chunk_coverage (spiPanel 5 1 17 2) 256 64 5 1 17 2 256 hb (by decide) (by decide)
    (by decide) (by decide)).2]
  decide

/-! ## Shape of the trace -/

theorem dataWrite_stream (d : Driver) (ptr n : Nat) :
    ∀ e ∈ dataWrite d ptr n, isStreamEvent e = true := by
  unfold dataWrite
  cases d.i2c_dev <;> simp [isStreamEvent]

theorem chunkLoop_stream (d : Driver) :
    ∀ (fuel ptr n : Nat), ∀ e ∈ (chunkLoop d fuel ptr n).1, isStreamEvent e = true := by
  intro fuel
  induction fuel with
  | zero => intro ptr n e he; simp [chunkLoop] at he
  | succ fuel ih =>
    intro ptr n e he
    unfold chunkLoop at he
    by_cases h : n = 0
    · simp [h] at he
    · simp only [h, if_false, List.mem_append, List.mem_cons] at he
      rcases he with he | he | he
      · exact dataWrite_stream d ptr _ e he
      · subst he; rfl
      · exact ih _ _ e he

theorem rowLoop_stream (d : Driver) (cf : Nat) :
    ∀ (fuel row : Nat), ∀ e ∈ (rowLoop d cf fuel row).1, isStreamEvent e = true := by
  intro fuel
  induction fuel with
  | zero => intro row e he; simp [rowLoop] at he
  | succ fuel ih =>
    intro row e he
    unfold rowLoop at he
    by_cases hrow : row ≤ row_end d
    · cases hc : (chunkLoop d cf (rowPtr d row) (rowBytes d)).2
      · simp only [hrow, if_true, hc] at he
        exact chunkLoop_stream d _ _ _ e (by simpa using he)
      · simp only [hrow, if_true, hc, List.mem_append] at he
        rcases he with he | he
        · exact chunkLoop_stream d _ _ _ e he
        · exact ih _ e he
    · simp [hrow] at he

theorem commands_append (a b : List Event) : commands (a ++ b) = commands a ++ commands b := by
  simp [commands]

theorem commands_of_stream (tr : List Event) (h : ∀ e ∈ tr, isStreamEvent e = true) :
    commands tr = [] := by
  induction tr with
  | nil => rfl
  | cons e tr ih =>
    have he := h e (List.mem_cons_self _ _)
    have ht := ih (fun e' he' => h e' (List.mem_cons_of_mem _ he'))
    simp only [commands, List.flatMap_cons] at ht ⊢
    rw [ht]
    cases e <;> simp_all [isStreamEvent, commandsOf]

theorem commands_setSpeed (d : Driver) (hz : Nat) : commands (setSpeed d hz) = [] := by
  unfold setSpeed
  cases d.i2c_dev <;> simp [commands, commandsOf]

/-- The commands of `display()`, whatever the state, the transport and the fuel: the row
window, the column window and the begin-write command. -/
theorem commands_display (fuel : Nat) (d : Driver) :
    commands (display fuel d).1 =
      [[0x75, row_start d, row_end d],
       [0x15, toUInt8 (28 + (col_start d : Int)), toUInt8 (28 + (col_end d : Int))],
       [0x5c]] := by
  have hrows := commands_of_stream _ (rowLoop_stream d fuel fuel (row_start d))
  have hhead : commands (displayHead d) =
      [[0x75, row_start d, row_end d],
       [0x15, toUInt8 (28 + (col_start d : Int)), toUInt8 (28 + (col_end d : Int))],
       [0x5c]] := by
    have hs := commands_setSpeed d d.i2c_preclk
    unfold displayHead
    rw [List.append_assoc, ← List.singleton_append, commands_append, commands_append, hs]
    simp [commands, commandsOf, oled_commandAndArgsList, oled_command, cmd, commandRecords]
  cases h : (rowLoop d fuel fuel (row_start d)).2
  · rw [display_stuck fuel d h, commands_append, hrows, hhead]; rfl
  · rw [display_done fuel d h, commands_append, commands_append, hrows, hhead,
      commands_setSpeed]
    rfl

/-! ## Size of the data writes -/

theorem chunkLoop_len (d : Driver) :
    ∀ (fuel ptr n : Nat), ∀ w ∈ dataWrites (chunkLoop d fuel ptr n).1,
      w.2 ≤ maxbuff d ∧ (1 ≤ maxbuff d → 1 ≤ w.2) := by
  intro fuel
  induction fuel with
  | zero => intro ptr n w hw; simp [chunkLoop, dataWrites] at hw
  | succ fuel ih =>
    intro ptr n w hw
    unfold chunkLoop at hw
    by_cases h : n = 0
    · simp [h, dataWrites] at hw
    · simp only [h, if_false] at hw
      rw [dataWrites_append, dataWrites_dataWrite] at hw
      simp only [List.singleton_append, List.mem_cons] at hw
      rcases hw with hw | hw
      · subst hw
        simp only
        omega
      · have hy : dataWrites (Event.yield :: (chunkLoop d fuel (ptr + min n (maxbuff d))
            (toUInt8 ((n : Int) - ((min n (maxbuff d) : Nat) : Int)))).1)
            = dataWrites (chunkLoop d fuel (ptr + min n (maxbuff d))
            (toUInt8 ((n : Int) - ((min n (maxbuff d) : Nat) : Int)))).1 := by
          simp [dataWrites, dataRange]
        rw [hy] at hw
        exact ih _ _ w hw

theorem rowLoop_len (d : Driver) (cf : Nat) :
    ∀ (fuel row : Nat), ∀ w ∈ dataWrites (rowLoop d cf fuel row).1,
      w.2 ≤ maxbuff d ∧ (1 ≤ maxbuff d → 1 ≤ w.2) := by
  intro fuel
  induction fuel with
  | zero => intro row w hw; simp [rowLoop, dataWrites] at hw
  | succ fuel ih =>
    intro row w hw
    unfold rowLoop at hw
    by_cases hrow : row ≤ row_end d
    · cases hc : (chunkLoop d cf (rowPtr d row) (rowBytes d)).2
      · simp only [hrow, if_true, hc] at hw
        exact chunkLoop_len d _ _ _ w (by simpa using hw)
      · simp only [hrow, if_true, hc] at hw
        rw [dataWrites_append, List.mem_append] at hw
        rcases hw with hw | hw
        · exact chunkLoop_len d _ _ _ w hw
        · exact ih _ w hw
    · simp [hrow, dataWrites] at hw

theorem dataWrites_display (fuel : Nat) (d : Driver) :
    dataWrites (display fuel d).1 = dataWrites (rowLoop d fuel fuel (row_start d)).1 := by
  have h1 := dataWrites_displayHead d
  have h2 := dataWrites_setSpeed d d.i2c_postclk
  cases h : (rowLoop d fuel fuel (row_start d)).2
  · rw [display_stuck fuel d h]; simp [dataWrites_append, h1]
  · rw [display_done fuel d h]; simp [dataWrites_append, h1, h2]

/-- Every data write of `display()` carries at most `maxbuff` bytes, and at least one byte
when `maxbuff` is not 0. -/
theorem display_len (fuel : Nat) (d : Driver) :
    ∀ w ∈ dataWrites (display fuel d).1, w.2 ≤ maxbuff d ∧ (1 ≤ maxbuff d → 1 ≤ w.2) := by
  rw [dataWrites_display]
  exact rowLoop_len d fuel fuel (row_start d)

/-! ## Loops that do not finish -/

/-- With a chunk limit of 0 every write is empty and `bytes_remaining` never decreases. -/
theorem chunkLoop_stuck (d : Driver) (h0 : maxbuff d = 0) :
    ∀ (fuel ptr n : Nat), n ≠ 0 → n < 256 → (chunkLoop d fuel ptr n).2 = false := by
  intro fuel
  induction fuel with
  | zero => intro ptr n hn _; simp [chunkLoop, hn]
  | succ fuel ih =>
    intro ptr n hn h256
    unfold chunkLoop
    have hsame : toUInt8 ((n : Int) - ((min n (maxbuff d) : Nat) : Int)) = n := by
      simp only [toUInt8, h0]; omega
    simp only [hn, if_false, hsame]
    exact ih _ n hn h256

theorem rowLoop_stuck_chunk (d : Driver) (cf : Nat) (h0 : maxbuff d = 0)
    (hbytes : rowBytes d ≠ 0) (row : Nat) (hrow : row ≤ row_end d) :
    ∀ fuel : Nat, (rowLoop d cf fuel row).2 = false := by
  intro fuel
  cases fuel with
  | zero => simp [rowLoop]; omega
  | succ fuel =>
    unfold rowLoop
    simp [hrow, chunkLoop_stuck d h0 cf (rowPtr d row) (rowBytes d) hbytes (rowBytes_lt d)]

/-- With `row_end = 255` the test `row <= row_end` holds for every 8-bit `row`. -/
theorem rowLoop_stuck_wrap (d : Driver) (cf : Nat) (hend : row_end d = 255) :
    ∀ (fuel row : Nat), row < 256 → (rowLoop d cf fuel row).2 = false := by
  intro fuel
  induction fuel with
  | zero => intro row hrow; simp [rowLoop, hend]; omega
  | succ fuel ih =>
    intro row hrow
    unfold rowLoop
    have hle : row ≤ row_end d := by omega
    have hnext : toUInt8 ((row : Int) + 1) < 256 := by simp only [toUInt8]; omega
    cases hc : (chunkLoop d cf (rowPtr d row) (rowBytes d)).2
    · simp [hle, hc]
    · simp [hle, hc, ih _ hnext]

theorem row_start_lt (d : Driver) : row_start d < 256 := by
  simp only [row_start, toUInt8]; omega

/-! ## Offsets sent -/

theorem sentOffsets_eq (tr : List Event) : sentOffsets tr = dataPayload id tr := by
  simp [sentOffsets, dataPayload, bufferBytes]

theorem sentOffsets_nil (tr : List Event) (h : ∀ w ∈ dataWrites tr, w.2 = 0) :
    sentOffsets tr = [] := by
  unfold sentOffsets
  rw [List.flatMap_eq_nil_iff]
  intro w hw
  rw [h w hw]
  rfl

/-- On an in-bounds region with a chunk limit of at least 1, `display()` returns and the
payload it sends, read from any memory `buffer`, is the window's bytes. -/
theorem display_window (d : Driver) (buffer : Nat → Nat) (W H x1 y1 x2 y2 fuel : Nat)
    (hb : InBounds d W H x1 y1 x2 y2) (hW : W ≤ 256) (hH : H ≤ 255)
    (hm : 1 ≤ maxbuff d) (hfuel : 256 ≤ fuel) :
    (rowLoop d fuel fuel (row_start d)).2 = true ∧
    dataPayload buffer (display fuel d).1 = windowBytes buffer W x1 y1 x2 y2 := by
  have hy := hb.y_le
  have hy2 := hb.y_lt
  have hrs := row_start_eq hb (by omega : H ≤ 256)
  have hre := row_end_eq hb (by omega : H ≤ 256)
  have hrows := rowLoop_rows d buffer fuel hm (by omega) (by omega) fuel (row_start d)
    (y2 - y1 + 1) (by omega) (by omega)
  refine ⟨hrows.1, ?_⟩
  rw [dataPayload_display, hrows.2, hrs]
  simp only [windowBytes, rowBytes_eq hb hW, rowPtr_eq hb hW]

theorem windowEmpty_resetWindow (d : Driver) : windowEmpty (resetWindow d) := by
  simp [windowEmpty, resetWindow]

/-! ## C2: dirty pixels are transmitted -/

/-- C2 as stated fails: the claim puts no condition on the transport.  On an I2C device
reporting `maxBufferSize() = 1` the chunk limit is 0: for the single dirty pixel (3,3) of
a 128x64 display, `display()` sends no byte at all (the pixel's byte, at offset
`3*64 + 1`, is never sent) and never returns, however much fuel it is given. -/
theorem dirty_pixels_sent_counterexample :
    InBounds (i2cPanel 1 3 3 3 3) 128 64 3 3 3 3 ∧
    ∀ fuel : Nat,
      3 * (128 / 2) + 3 / 2 ∉ sentOffsets (display fuel (i2cPanel 1 3 3 3 3)).1 ∧
      (display fuel (i2cPanel 1 3 3 3 3)).2 = none := by
  have hb : InBounds (i2cPanel 1 3 3 3 3) 128 64 3 3 3 3 :=
    ⟨rfl, rfl, rfl, rfl, rfl, rfl, by decide, by decide, by decide, by decide⟩
  have h0 : maxbuff (i2cPanel 1 3 3 3 3) = 0 := by decide
  refine ⟨hb, fun fuel => ⟨?_, ?_⟩⟩
  · have hnil := sentOffsets_nil (display fuel (i2cPanel 1 3 3 3 3)).1 (fun w hw => by
      have := (display_len fuel (i2cPanel 1 3 3 3 3) w hw).1
      omega)
    rw [hnil]
    exact List.not_mem_nil _
  · have hstuck := rowLoop_stuck_chunk (i2cPanel 1 3 3 3 3) fuel h0 (by decide)
      (row_start (i2cPanel 1 3 3 3 3)) (by decide) fuel
    rw [display_stuck fuel _ hstuck]

/-- C2, amended with a chunk limit of at least 1.  For every display with `W ≤ 256`,
`H ≤ 255` (even width is not needed), every in-bounds dirty region and every pixel
`(x, y)` of it: `display()` returns and leaves the dirty region empty, the byte holding
the pixel (offset `y*(W/2) + x/2`) is among the bytes sent, and the row window programmed,
`(y1, y2)`, covers `y`.  For a single dirty pixel the commands are the row window
`(y, y)`, the column window `(28 + x/4, 28 + x/4)` and begin-write, and exactly the two
bytes at `y*(W/2) + 2*(x/4)` and the next offset are sent. -/
theorem dirty_pixels_sent (d : Driver) (W H x1 y1 x2 y2 x y fuel : Nat)
    (hb : InBounds d W H x1 y1 x2 y2) (hW : W ≤ 256) (hH : H ≤ 255)
    (hx1 : x1 ≤ x) (hx2 : x ≤ x2) (hy1 : y1 ≤ y) (hy2 : y ≤ y2)
    (hm : 1 ≤ maxbuff d) (hfuel : 256 ≤ fuel) :
    y * (W / 2) + x / 2 ∈ sentOffsets (display fuel d).1 ∧
    ([0x75, y1, y2] ∈ commands (display fuel d).1 ∧ y1 ≤ y ∧ y ≤ y2) ∧
    (∃ d', (display fuel d).2 = some d' ∧ windowEmpty d') ∧
    (x1 = x2 → y1 = y2 →
      commands (display fuel d).1 = [[0x75, y, y], [0x15, 28 + x / 4, 28 + x / 4], [0x5c]] ∧
      sentOffsets (display fuel d).1 =
        [y * (W / 2) + 2 * (x / 4), y * (W / 2) + 2 * (x / 4) + 1]) := by
  have hxlt := hb.x_lt
  have hylt := hb.y_lt
  have hwin := display_window d id W H x1 y1 x2 y2 fuel hb hW hH hm hfuel
  have hcmd := commands_display fuel d
  rw [row_start_eq hb (by omega : H ≤ 256), row_end_eq hb (by omega : H ≤ 256),
    col_start_eq hb hW, col_end_eq hb hW] at hcmd
  have hc1 : toUInt8 (28 + ((x1 / 4 : Nat) : Int)) = 28 + x1 / 4 := by
    simp only [toUInt8]; omega
  have hc2 : toUInt8 (28 + ((x2 / 4 : Nat) : Int)) = 28 + x2 / 4 := by
    simp only [toUInt8]; omega
  rw [hc1, hc2] at hcmd
  have hoff : sentOffsets (display fuel d).1 = windowBytes id W x1 y1 x2 y2 := by
    rw [sentOffsets_eq]; exact hwin.2
  refine ⟨?_, ⟨?_, hy1, hy2⟩, ?_, ?_⟩
  · rw [hoff]
    simp only [windowBytes, bufferBytes, List.map_id_fun, id_eq, List.mem_flatMap,
      List.mem_range'_1]
    exact ⟨y, ⟨hy1, by omega⟩, by omega, by omega⟩
  · rw [hcmd]; simp
  · exact ⟨resetWindow d, by rw [display_done fuel d hwin.1], windowEmpty_resetWindow d⟩
  · intro hxe hye
    have hxx : x = x1 := by omega
    have hyy : y = y1 := by omega
    subst hxx hyy
    subst hxe hye
    refine ⟨hcmd, ?_⟩
    rw [hoff]
    simp [windowBytes, bufferBytes, List.range'_succ]

/-- C2 at a concrete input: the single dirty pixel (9,2) of a 256x64 SPI panel. -/
theorem dirty_pixels_sent_witness :
    InBounds (spiPanel 9 2 9 2) 256 64 9 2 9 2 ∧
    commands (display 256 (spiPanel 9 2 9 2)).1 = [[0x75, 2, 2], [0x15, 30, 30], [0x5c]] ∧
    sentOffsets (display 256 (spiPanel 9 2 9 2)).1 = [260, 261] := by
  have hb : InBounds (spiPanel 9 2 9 2) 256 64 9 2 9 2 :=
    ⟨rfl, rfl, rfl, rfl, rfl, rfl, by decide, by decide, by decide, by decide⟩
  exact ⟨hb, (dirty_pixels_sent (spiPanel 9 2 9 2) 256 64 9 2 9 2 9 2 256 hb (by decide)
    (by decide) (by decide) (by decide) (by decide) (by decide) (by decide)
    (by decide)).2.2.2 rfl rfl⟩

/-! ## C3: window encoding -/

/-- The trace of `display()` starts with the events of `displayHead`. -/
theorem display_head (fuel : Nat) (d : Driver) :
    ∃ rest, (display fuel d).1 = displayHead d ++ rest := by
  cases h : (rowLoop d fuel fuel (row_start d)).2
  · exact ⟨_, by rw [display_stuck fuel d h]⟩
  · exact ⟨_, by rw [display_done fuel d h, List.append_assoc]⟩

theorem cmd_mem_displayHead (d : Driver) :
    Event.oled_commandAndArgsList (cmd d) ∈ displayHead d := by
  simp [displayHead, oled_commandAndArgsList]

/-- C3 (window encoding).  For every display with `W ≤ 256`, `H ≤ 256` and every
in-bounds dirty region, `display()` hands to `oled_commandAndArgsList` the table
`3, 0x75, y1, y2, 3, 0x15, 28 + x1/4, 28 + x2/4`: the row window is command 0x75 with the
argument pair `(y1, y2)`, the column window is command 0x15 with the argument pair
`(28 + x1/4, 28 + x2/4)`; the only other command is begin-write 0x5C.  This holds for any
amount of fuel, the commands being sent before the loops. -/
theorem window_encoding (d : Driver) (W H x1 y1 x2 y2 fuel : Nat)
    (hb : InBounds d W H x1 y1 x2 y2) (hW : W ≤ 256) (hH : H ≤ 256) :
    Event.oled_commandAndArgsList [3, 0x75, y1, y2, 3, 0x15, 28 + x1 / 4, 28 + x2 / 4]
      ∈ (display fuel d).1 ∧
    commands (display fuel d).1 =
      [[0x75, y1, y2], [0x15, 28 + x1 / 4, 28 + x2 / 4], [0x5c]] := by
  have hxlt := hb.x_lt
  have hxle := hb.x_le
  have hc1 : toUInt8 (28 + ((x1 / 4 : Nat) : Int)) = 28 + x1 / 4 := by
    simp only [toUInt8]; omega
  have hc2 : toUInt8 (28 + ((x2 / 4 : Nat) : Int)) = 28 + x2 / 4 := by
    simp only [toUInt8]; omega
  have hcmd : cmd d = [3, 0x75, y1, y2, 3, 0x15, 28 + x1 / 4, 28 + x2 / 4] := by
    simp only [cmd, row_start_eq hb hH, row_end_eq hb hH, col_start_eq hb hW,
      col_end_eq hb hW, hc1, hc2]
  refine ⟨?_, ?_⟩
  · obtain ⟨rest, hrest⟩ := display_head fuel d
    rw [hrest, ← hcmd]
    exact List.mem_append_left _ (cmd_mem_displayHead d)
  · rw [commands_display, row_start_eq hb hH, row_end_eq hb hH, col_start_eq hb hW,
      col_end_eq hb hW, hc1, hc2]

/-- C3 at the input of the spec: dirty rectangle x1=0, x2=7, y1=0, y2=0 gives the column
window (28, 29) and the row window (0, 0). -/
theorem window_encoding_witness :
    InBounds (spiPanel 0 0 7 0) 256 64 0 0 7 0 ∧
    commands (display 256 (spiPanel 0 0 7 0)).1 = [[0x75, 0, 0], [0x15, 28, 29], [0x5c]] := by
  have hb : InBounds (spiPanel 0 0 7 0) 256 64 0 0 7 0 :=
    ⟨rfl, rfl, rfl, rfl, rfl, rfl, by decide, by decide, by decide, by decide⟩
  exact ⟨hb, (window_encoding (spiPanel 0 0 7 0) 256 64 0 0 7 0 256 hb (by decide)
    (by decide)).2⟩

/-! ## C4: chunk size bound -/

/-- A property of `yield` and of the events of every data write holds of every event of
the row loop. -/
theorem rowLoop_forall (d : Driver) (cf : Nat) (P : Event → Prop) (hy : P Event.yield)
    (hw : ∀ ptr n, ∀ e ∈ dataWrite d ptr n, P e) :
    ∀ (fuel row : Nat), ∀ e ∈ (rowLoop d cf fuel row).1, P e := by
  have hchunk : ∀ (fuel ptr n : Nat), ∀ e ∈ (chunkLoop d fuel ptr n).1, P e := by
    intro fuel
    induction fuel with
    | zero => intro ptr n e he; simp [chunkLoop] at he
    | succ fuel ih =>
      intro ptr n e he
      unfold chunkLoop at he
      by_cases h : n = 0
      · simp [h] at he
      · simp only [h, if_false, List.mem_append, List.mem_cons] at he
        rcases he with he | he | he
        · exact hw ptr _ e he
        · subst he; exact hy
        · exact ih _ _ e he
  intro fuel
  induction fuel with
  | zero => intro row e he; simp [rowLoop] at he
  | succ fuel ih =>
    intro row e he
    unfold rowLoop at he
    by_cases hrow : row ≤ row_end d
    · cases hc : (chunkLoop d cf (rowPtr d row) (rowBytes d)).2
      · simp only [hrow, if_true, hc] at he
        exact hchunk _ _ _ e (by simpa using he)
      · simp only [hrow, if_true, hc, List.mem_append] at he
        rcases he with he | he
        · exact hchunk _ _ _ e he
        · exact ih _ e he
    · simp [hrow] at he

/-- Every I2C write of `display()` carries the data/command byte 0x40. -/
theorem display_dc_byte (fuel : Nat) (d : Driver) (ptr len b : Nat)
    (h : Event.i2c_write ptr len b ∈ (display fuel d).1) : b = 0x40 := by
  have hrows := rowLoop_forall d fuel
    (fun e => ∀ p l c, e = Event.i2c_write p l c → c = 0x40)
    (fun _ _ _ he => by cases he)
    (fun p n e he => by
      unfold dataWrite at he
      cases hd : d.i2c_dev <;> simp [hd] at he
      · rcases he with he | he <;> subst he <;> intro _ _ _ h' <;> cases h'
      · subst he; intro _ _ _ h'; cases h'; rfl)
    fuel (row_start d)
  have hspeed : ∀ hz, Event.i2c_write ptr len b ∉ setSpeed d hz := by
    intro hz; unfold setSpeed; cases d.i2c_dev <;> simp
  have hhead : Event.i2c_write ptr len b ∉ displayHead d := by
    have := hspeed d.i2c_preclk
    simp [displayHead, oled_commandAndArgsList, oled_command, this]
  cases hdone : (rowLoop d fuel fuel (row_start d)).2
  · rw [display_stuck fuel d hdone, List.mem_append] at h
    rcases h with h | h
    · exact absurd h hhead
    · exact hrows _ h ptr len b rfl
  · rw [display_done fuel d hdone, List.mem_append, List.mem_append] at h
    rcases h with (h | h) | h
    · exact absurd h hhead
    · exact hrows _ h ptr len b rfl
    · exact absurd h (hspeed _)

/-- C4 as stated fails at `maxBufferSize() = 257`: the 8-bit `maxbuff` is then
`256 mod 256 = 0`, so the data writes carry no byte at all (not "at least 1"): with fuel
for two chunks the data writes are two empty writes at offset 192, and every data write
is empty whatever the fuel. -/
theorem chunk_size_bound_counterexample :
    (i2cPanel 257 3 3 3 3).i2c_dev = some ⟨257, true⟩ ∧
    dataWrites (display 2 (i2cPanel 257 3 3 3 3)).1 = [(192, 0), (192, 0)] ∧
    ∀ fuel : Nat, ∀ w ∈ dataWrites (display fuel (i2cPanel 257 3 3 3 3)).1, w.2 = 0 := by
  refine ⟨rfl, by decide, fun fuel w hw => ?_⟩
  have h0 : maxbuff (i2cPanel 257 3 3 3 3) = 0 := by decide
  have := (display_len fuel (i2cPanel 257 3 3 3 3) w hw).1
  omega

/-- C4, amended: the chunk limit is the 8-bit value of `maxBufferSize() - 1`.  For every
state, buffer and fuel, every data write `w` of `display()`: on an I2C device reporting
`m ≥ 2` with `m - 1` not a multiple of 256 (so for every `2 ≤ m ≤ 256`) it carries at
least 1 and at most `(m-1) mod 256 ≤ m-1` bytes, so that the payload and the one prefix
byte, which is 0x40, are at most `m` bytes; on SPI it carries at least 1 and at most 128
bytes. -/
theorem chunk_size_bound (d : Driver) (fuel : Nat) (w : Nat × Nat)
    (hw : w ∈ dataWrites (display fuel d).1) :
    (∀ dev, d.i2c_dev = some dev → 2 ≤ dev.maxBufferSize →
        (dev.maxBufferSize - 1) % 256 ≠ 0 →
        1 ≤ w.2 ∧ w.2 ≤ (dev.maxBufferSize - 1) % 256 ∧ w.2 + 1 ≤ dev.maxBufferSize) ∧
    (d.i2c_dev = none → 1 ≤ w.2 ∧ w.2 ≤ 128) ∧
    (∀ ptr len b, Event.i2c_write ptr len b ∈ (display fuel d).1 → b = 0x40) := by
  have hlen := display_len fuel d w hw
  refine ⟨?_, ?_, fun ptr len b h => display_dc_byte fuel d ptr len b h⟩
  · intro dev hdev hm hne
    have hmax : maxbuff d = (dev.maxBufferSize - 1) % 256 := by
      simp only [maxbuff, hdev, toUInt8]; omega
    rw [hmax] at hlen
    have h1 := hlen.2 (by omega)
    have h2 := hlen.1
    have h3 : (dev.maxBufferSize - 1) % 256 ≤ dev.maxBufferSize - 1 := Nat.mod_le _ _
    omega
  · intro hspi
    have hmax : maxbuff d = 128 := by simp only [maxbuff, hspi]
    rw [hmax] at hlen
    exact ⟨hlen.2 (by omega), hlen.1⟩

/-- C4 at a concrete input: a 128x64 I2C panel with `maxBufferSize() = 32`, two dirty
full rows; the first data write carries 31 bytes. -/
theorem chunk_size_bound_witness :
    (0, 31) ∈ dataWrites (display 256 (i2cPanel 32 0 0 127 1)).1 ∧
    (1 ≤ 31 ∧ 31 ≤ (32 - 1) % 256 ∧ 31 + 1 ≤ 32) :=
  ⟨by decide, (chunk_size_bound (i2cPanel 32 0 0 127 1) 256 (0, 31) (by decide)).1
    ⟨32, true⟩ rfl (by decide) (by decide)⟩

/-! ## Termination of `display()` -/

theorem chunkLoop_zero (d : Driver) (fuel ptr : Nat) : chunkLoop d fuel ptr 0 = ([], true) := by
  cases fuel <;> simp [chunkLoop]

theorem rowLoop_past (d : Driver) (cf : Nat) (fuel row : Nat) (h : row_end d < row) :
    rowLoop d cf fuel row = ([], true) := by
  cases fuel with
  | zero => simp [rowLoop, h]
  | succ fuel =>
    unfold rowLoop
    simp [Nat.not_le.2 h]

theorem rowLoop_done (d : Driver) (cf : Nat) (hchunk : 1 ≤ maxbuff d ∨ rowBytes d = 0)
    (hcf : 255 ≤ cf) (hend : row_end d < 255) :
    ∀ (fuel row : Nat), row_end d + 1 - row ≤ fuel → (rowLoop d cf fuel row).2 = true := by
  intro fuel
  induction fuel with
  | zero =>
    intro row h
    simp [rowLoop]; omega
  | succ fuel ih =>
    intro row h
    by_cases hrow : row ≤ row_end d
    · have hdone : (chunkLoop d cf (rowPtr d row) (rowBytes d)).2 = true := by
        rcases hchunk with hm | h0
        · exact chunkLoop_done d hm cf _ _ (by have := rowBytes_lt d; omega) (rowBytes_lt d)
        · rw [h0, chunkLoop_zero]
      have hnext : toUInt8 ((row : Int) + 1) = row + 1 := by
        simp only [toUInt8]; omega
      unfold rowLoop
      simp only [hrow, if_true, hdone, hnext]
      exact ih (row + 1) (by omega)
    · rw [rowLoop_past d cf _ row (by omega)]

/-- On the states of `flushReturns`, 256 units of fuel are enough for `display()` to
return, and it leaves the state with the dirty region reset. -/
theorem display_returns (d : Driver) (h : flushReturns d) (fuel : Nat) (hfuel : 256 ≤ fuel) :
    (display fuel d).2 = some (resetWindow d) := by
  have hdone : (rowLoop d fuel fuel (row_start d)).2 = true := by
    rcases h with h | ⟨hend, hchunk⟩
    · rw [rowLoop_past d fuel fuel _ h]
    · exact rowLoop_done d fuel hchunk (by omega) hend fuel _ (by omega)
  rw [display_done fuel d hdone]

/-- On every other state `display()` does not return, whatever the fuel. -/
theorem display_diverges (d : Driver) (h : ¬ flushReturns d) (fuel : Nat) :
    (display fuel d).2 = none := by
  have hstuck : (rowLoop d fuel fuel (row_start d)).2 = false := by
    unfold flushReturns at h
    have hre : row_end d < 256 := by simp only [row_end, toUInt8]; omega
    by_cases hend : row_end d = 255
    · exact rowLoop_stuck_wrap d fuel hend fuel _ (row_start_lt d)
    · have h0 : maxbuff d = 0 := by omega
      have hb : rowBytes d ≠ 0 := by omega
      exact rowLoop_stuck_chunk d fuel h0 hb _ (by omega) fuel
  rw [display_stuck fuel d hstuck]

theorem resetWindow_of_empty (d : Driver) (h : windowEmpty d) : resetWindow d = d := by
  obtain ⟨h1, h2, h3, h4⟩ := h
  cases d
  simp only [resetWindow]
  simp_all

/-! ## C5: reset after flush -/

/-- C5 (reset after flush).  For every prior state, transport and fuel: when `display()`
returns, the state it leaves is the prior one with the dirty region set to the empty
sentinel `(1024, 1024, -1, -1)`, which is inverted.  It does return, with 256 units of
fuel, on every state of `flushReturns`.  On an already-empty tracker the state after
`display()` is the state before: the tracker stays empty. -/
theorem reset_after_flush (d : Driver) :
    (∀ fuel d', (display fuel d).2 = some d' →
      d' = resetWindow d ∧ dirtyRegion d' = (1024, 1024, -1, -1) ∧
      d'.window_x2 < d'.window_x1 ∧ d'.window_y2 < d'.window_y1) ∧
    (flushReturns d → ∀ fuel, 256 ≤ fuel →
      ∃ d', (display fuel d).2 = some d' ∧ windowEmpty d') ∧
    (windowEmpty d → flushReturns d → ∀ fuel, 256 ≤ fuel → (display fuel d).2 = some d) := by
  refine ⟨?_, ?_, ?_⟩
  · intro fuel d' h
    cases hdone : (rowLoop d fuel fuel (row_start d)).2
    · rw [display_stuck fuel d hdone] at h; cases h
    · rw [display_done fuel d hdone] at h
      simp only [Option.some.injEq] at h
      subst h
      refine ⟨rfl, rfl, ?_, ?_⟩ <;> simp [resetWindow]
  · intro hr fuel hfuel
    exact ⟨resetWindow d, display_returns d hr fuel hfuel, windowEmpty_resetWindow d⟩
  · intro he hr fuel hfuel
    rw [display_returns d hr fuel hfuel, resetWindow_of_empty d he]

/-- C5 at a concrete input: a non-empty region is reset, and a second flush, on the
now-empty tracker, returns and leaves it empty. -/
theorem reset_after_flush_witness :
    flushReturns (i2cPanel 32 0 0 127 1) ∧
    (∃ d', (display 256 (i2cPanel 32 0 0 127 1)).2 = some d' ∧ windowEmpty d') ∧
    windowEmpty (i2cPanel 32 1024 1024 (-1) (-1)) ∧
    flushReturns (i2cPanel 32 1024 1024 (-1) (-1)) ∧
    (display 256 (i2cPanel 32 1024 1024 (-1) (-1))).2
      = some (i2cPanel 32 1024 1024 (-1) (-1)) :=
  ⟨by decide,
   (reset_after_flush (i2cPanel 32 0 0 127 1)).2.1 (by decide) 256 (by decide),
   by decide, by decide,
   (reset_after_flush (i2cPanel 32 1024 1024 (-1) (-1))).2.2 (by decide) (by decide) 256
     (by decide)⟩

/-! ## Clock rates -/

theorem speeds_append (a b : List Event) : speeds (a ++ b) = speeds a ++ speeds b := by
  simp [speeds]

theorem speeds_of_stream (tr : List Event) (h : ∀ e ∈ tr, isStreamEvent e = true) :
    speeds tr = [] := by
  induction tr with
  | nil => rfl
  | cons e tr ih =>
    have he := h e (List.mem_cons_self _ _)
    have ht := ih (fun e' he' => h e' (List.mem_cons_of_mem _ he'))
    simp only [speeds] at ht ⊢
    cases e <;> simp_all [isStreamEvent]

theorem setSpeed_i2c (d : Driver) (dev : I2CDevice) (h : d.i2c_dev = some dev) (hz : Nat) :
    setSpeed d hz = [Event.setSpeed hz] := by
  simp [setSpeed, h]

theorem setSpeed_spi (d : Driver) (h : d.i2c_dev = none) (hz : Nat) : setSpeed d hz = [] := by
  simp [setSpeed, h]

/-- The trace of a `display()` that returns, on I2C. -/
theorem display_trace_i2c (fuel : Nat) (d : Driver) (dev : I2CDevice)
    (hdev : d.i2c_dev = some dev) (hdone : (rowLoop d fuel fuel (row_start d)).2 = true) :
    (display fuel d).1 =
      Event.yield :: Event.setSpeed d.i2c_preclk :: Event.oled_commandAndArgsList (cmd d) ::
        Event.oled_command 0x5c :: (rowLoop d fuel fuel (row_start d)).1
        ++ [Event.setSpeed d.i2c_postclk] := by
  rw [display_done fuel d hdone]
  simp [displayHead, setSpeed_i2c d dev hdev, oled_commandAndArgsList, oled_command]

/-- On SPI no event of `display()` sets a clock rate. -/
theorem speeds_display_spi (fuel : Nat) (d : Driver) (hspi : d.i2c_dev = none) :
    speeds (display fuel d).1 = [] := by
  have hrows := speeds_of_stream _ (rowLoop_stream d fuel fuel (row_start d))
  have hhead : speeds (displayHead d) = [] := by
    simp [displayHead, setSpeed_spi d hspi, oled_commandAndArgsList, oled_command, speeds]
  cases h : (rowLoop d fuel fuel (row_start d)).2
  · rw [display_stuck fuel d h, speeds_append, hrows, hhead]; rfl
  · rw [display_done fuel d h, speeds_append, speeds_append, hrows, hhead,
      setSpeed_spi d hspi]
    rfl

/-! ## The locals of `display()` on an empty dirty region -/

theorem row_end_of_empty (d : Driver) (h : windowEmpty d) : row_end d = 0 := by
  obtain ⟨_, _, _, h4⟩ := h
  simp only [row_end, toUInt8, toInt16, h4]
  omega

theorem col_end_of_empty (d : Driver) (h : windowEmpty d) : col_end d = 0 := by
  obtain ⟨_, _, h3, _⟩ := h
  simp only [col_end, x_end, toUInt8, toUInt16, h3]
  omega

/-! ## C6: flush of an empty region, commands and clock -/

/-- C6 as stated fails: `display()` has no test for an empty dirty region.  Called on the
empty region on a 128x64 I2C panel it sends the three window-programming commands (row
window (63, 0), column window (59, 28), begin-write) and sets both clock rates. -/
theorem empty_flush_bus_counterexample :
    windowEmpty (i2cPanel 32 1024 1024 (-1) (-1)) ∧
    commands (display 256 (i2cPanel 32 1024 1024 (-1) (-1))).1
      = [[0x75, 63, 0], [0x15, 59, 28], [0x5c]] ∧
    speeds (display 256 (i2cPanel 32 1024 1024 (-1) (-1))).1 = [400000, 100000] := by
  decide

/-- C6, amended to what the code does.  Called with the dirty region empty, `display()`
issues the same three commands as any flush, once each and in this order: 0x75 with the
arguments `(row_start, 0)`, 0x15 with the arguments `(28 + col_start, 28)` (8-bit), and
0x5C.  On the I2C transport the trace starts with the yield, then `setSpeed(i2c_preclk)`,
then the window table, then 0x5C, and no command follows: the burst clock is set before
the three commands.  When `display()` returns, the trace is these four events, stream
events (yields and data writes only) and last `setSpeed(i2c_postclk)`: the idle clock is
set after the three commands, and the clock rates set are `i2c_preclk` then
`i2c_postclk`.  On SPI no clock rate is set. -/
theorem empty_flush_bus (d : Driver) (fuel : Nat) (he : windowEmpty d) :
    commands (display fuel d).1 =
      [[0x75, row_start d, 0], [0x15, toUInt8 (28 + (col_start d : Int)), 28], [0x5c]] ∧
    (∀ dev, d.i2c_dev = some dev →
      Event.setSpeed d.i2c_preclk ∈ (display fuel d).1 ∧
      (∃ rest, (display fuel d).1 =
          Event.yield :: Event.setSpeed d.i2c_preclk ::
            Event.oled_commandAndArgsList
              [3, 0x75, row_start d, 0, 3, 0x15, toUInt8 (28 + (col_start d : Int)), 28] ::
            Event.oled_command 0x5c :: rest ∧
        commands rest = []) ∧
      (flushReturns d → 256 ≤ fuel →
        speeds (display fuel d).1 = [d.i2c_preclk, d.i2c_postclk] ∧
        ∃ rows, (display fuel d).1 =
            Event.yield :: Event.setSpeed d.i2c_preclk ::
              Event.oled_commandAndArgsList
                [3, 0x75, row_start d, 0, 3, 0x15, toUInt8 (28 + (col_start d : Int)), 28] ::
              Event.oled_command 0x5c :: rows ++ [Event.setSpeed d.i2c_postclk] ∧
          (∀ e ∈ rows, isStreamEvent e = true) ∧ commands rows = [])) ∧
    (d.i2c_dev = none → speeds (display fuel d).1 = []) := by
  have hcmd : cmd d =
      [3, 0x75, row_start d, 0, 3, 0x15, toUInt8 (28 + (col_start d : Int)), 28] := by
    simp only [cmd, row_end_of_empty d he, col_end_of_empty d he]
    rfl
  have hstream := rowLoop_stream d fuel fuel (row_start d)
  have hrowcmd := commands_of_stream _ hstream
  refine ⟨?_, ?_, speeds_display_spi fuel d⟩
  · rw [commands_display, row_end_of_empty d he, col_end_of_empty d he]
    rfl
  · intro dev hdev
    have hhead : displayHead d =
        [Event.yield, Event.setSpeed d.i2c_preclk,
          Event.oled_commandAndArgsList
            [3, 0x75, row_start d, 0, 3, 0x15, toUInt8 (28 + (col_start d : Int)), 28],
          Event.oled_command 0x5c] := by
      rw [← hcmd]
      simp [displayHead, setSpeed_i2c d dev hdev, oled_commandAndArgsList, oled_command]
    refine ⟨?_, ?_, ?_⟩
    · obtain ⟨rest, hrest⟩ := display_head fuel d
      rw [hrest]
      apply List.mem_append_left
      simp [displayHead, setSpeed_i2c d dev hdev]
    · cases h : (rowLoop d fuel fuel (row_start d)).2
      · refine ⟨(rowLoop d fuel fuel (row_start d)).1, ?_, hrowcmd⟩
        rw [display_stuck fuel d h, hhead]
        rfl
      · refine ⟨(rowLoop d fuel fuel (row_start d)).1 ++ [Event.setSpeed d.i2c_postclk],
          ?_, ?_⟩
        · rw [display_done fuel d h, hhead, setSpeed_i2c d dev hdev, List.append_assoc]
          rfl
        · rw [commands_append, hrowcmd]
          rfl
    · intro hr hfuel
      have hsome := display_returns d hr fuel hfuel
      have hdone : (rowLoop d fuel fuel (row_start d)).2 = true := by
        rw [← display_isSome, hsome]; rfl
      have htrace := display_trace_i2c fuel d dev hdev hdone
      refine ⟨?_, (rowLoop d fuel fuel (row_start d)).1, ?_, hstream, hrowcmd⟩
      · rw [htrace]
        have hrows := speeds_of_stream _ hstream
        simp only [speeds] at hrows ⊢
        simp [hrows]
      · rw [htrace, hcmd]

/-- C6 at a concrete input: the empty region on a 128x64 I2C panel.  The burst clock is
set before the three commands and the idle clock after them. -/
theorem empty_flush_bus_witness :
    windowEmpty (i2cPanel 32 1024 1024 (-1) (-1)) ∧
    flushReturns (i2cPanel 32 1024 1024 (-1) (-1)) ∧
    speeds (display 256 (i2cPanel 32 1024 1024 (-1) (-1))).1 = [400000, 100000] ∧
    ∃ rows, (display 256 (i2cPanel 32 1024 1024 (-1) (-1))).1 =
        Event.yield :: Event.setSpeed 400000 ::
          Event.oled_commandAndArgsList
            [3, 0x75, row_start (i2cPanel 32 1024 1024 (-1) (-1)), 0, 3, 0x15,
              toUInt8 (28 + (col_start (i2cPanel 32 1024 1024 (-1) (-1)) : Int)), 28] ::
          Event.oled_command 0x5c :: rows ++ [Event.setSpeed 100000] ∧
      (∀ e ∈ rows, isStreamEvent e = true) ∧ commands rows = [] :=
  ⟨by decide, by decide,
   ((empty_flush_bus (i2cPanel 32 1024 1024 (-1) (-1)) 256 (by decide)).2.1 ⟨32, true⟩
     rfl).2.2 (by decide) (by decide)⟩

/-! ## C7: flush of an empty region, data -/

/-- C7 as stated fails at `H = 257` (with `W = 256 ≤ 1025`): `row_start` is the 8-bit
value of `min(H-1, 1024) = 256`, that is 0, so row 0 is sent: two data writes, of 128 and
4 bytes. -/
theorem empty_flush_no_data_counterexample :
    windowEmpty { spiPanel 1024 1024 (-1) (-1) with HEIGHT := 257 } ∧
    row_start { spiPanel 1024 1024 (-1) (-1) with HEIGHT := 257 } = 0 ∧
    dataWrites (display 256 { spiPanel 1024 1024 (-1) (-1) with HEIGHT := 257 }).1
      = [(126, 128), (254, 4)] := by
  decide

/-- C7, amended: the height must not make the 8-bit `row_start` zero.  For every display
with `2 ≤ H ≤ 32767` such that `min(H-1, 1024)` is not a multiple of 256 (so for every
`2 ≤ H ≤ 256`), any width, either transport and any chunk limit: called with the dirty
region empty, `display()` issues no data write, for any fuel, and returns (the row loop
body never runs: `row_start > row_end = 0`). -/
theorem empty_flush_no_data (d : Driver) (fuel : Nat) (he : windowEmpty d)
    (hH2 : 2 ≤ d.HEIGHT) (hH : d.HEIGHT ≤ 32767)
    (hne : (min (d.HEIGHT - 1) 1024) % 256 ≠ 0) :
    dataWrites (display fuel d).1 = [] ∧ (display fuel d).2 = some d ∧
    row_end d = 0 ∧ 0 < row_start d := by
  have hre := row_end_of_empty d he
  have hrs : 0 < row_start d := by
    obtain ⟨_, h2, _, _⟩ := he
    simp only [row_start, toUInt8, toInt16, h2]
    omega
  have hpast := rowLoop_past d fuel fuel (row_start d) (by omega)
  refine ⟨?_, ?_, hre, hrs⟩
  · rw [dataWrites_display, hpast]; rfl
  · rw [display_done fuel d (by rw [hpast]), resetWindow_of_empty d he]

/-- C7 at a concrete input: the empty region on a 128x64 I2C panel, with no fuel. -/
theorem empty_flush_no_data_witness :
    windowEmpty (i2cPanel 32 1024 1024 (-1) (-1)) ∧
    dataWrites (display 0 (i2cPanel 32 1024 1024 (-1) (-1))).1 = [] :=
  ⟨by decide, (empty_flush_no_data (i2cPanel 32 1024 1024 (-1) (-1)) 0 (by decide)
    (by decide) (by decide) (by decide)).1⟩

/-! ## C8: bus speed bracketing -/

/-- C8 (bus speed bracketing).  For every in-bounds dirty region on a display with
`W ≤ 256`, `H ≤ 255` and chunk limit at least 1: on I2C the trace of `display()` is the
yield, `setSpeed(i2c_preclk)`, the window table, begin-write, the streaming events (yields
and data writes only) and last `setSpeed(i2c_postclk)`; so the clock is set exactly twice,
to `i2c_preclk` before every command and data write and to `i2c_postclk` after all of
them.  On SPI the trace sets no clock rate. -/
theorem speed_bracketing (d : Driver) (W H x1 y1 x2 y2 fuel : Nat)
    (hb : InBounds d W H x1 y1 x2 y2) (hW : W ≤ 256) (hH : H ≤ 255)
    (hm : 1 ≤ maxbuff d) (hfuel : 256 ≤ fuel) :
    (∀ dev, d.i2c_dev = some dev →
      ∃ rows, (display fuel d).1 =
          Event.yield :: Event.setSpeed d.i2c_preclk ::
            Event.oled_commandAndArgsList (cmd d) :: Event.oled_command 0x5c :: rows
            ++ [Event.setSpeed d.i2c_postclk] ∧
        (∀ e ∈ rows, isStreamEvent e = true) ∧
        dataWrites rows = dataWrites (display fuel d).1 ∧
        speeds (display fuel d).1 = [d.i2c_preclk, d.i2c_postclk]) ∧
    (d.i2c_dev = none → speeds (display fuel d).1 = []) := by
  refine ⟨?_, speeds_display_spi fuel d⟩
  intro dev hdev
  have hdone := (display_window d id W H x1 y1 x2 y2 fuel hb hW hH hm hfuel).1
  have hstream := rowLoop_stream d fuel fuel (row_start d)
  have htrace := display_trace_i2c fuel d dev hdev hdone
  refine ⟨(rowLoop d fuel fuel (row_start d)).1, htrace, hstream, ?_, ?_⟩
  · rw [dataWrites_display]
  · rw [htrace]
    have hrows := speeds_of_stream _ hstream
    simp only [speeds] at hrows ⊢
    simp [hrows]

/-- C8 at a concrete input: a 128x64 I2C panel, `maxBufferSize() = 32`, two full rows. -/
theorem speed_bracketing_witness :
    InBounds (i2cPanel 32 0 0 127 1) 128 64 0 0 127 1 ∧
    ∃ rows, (display 256 (i2cPanel 32 0 0 127 1)).1 =
        Event.yield :: Event.setSpeed 400000 ::
          Event.oled_commandAndArgsList (cmd (i2cPanel 32 0 0 127 1)) ::
          Event.oled_command 0x5c :: rows ++ [Event.setSpeed 100000] ∧
      (∀ e ∈ rows, isStreamEvent e = true) ∧
      dataWrites rows = dataWrites (display 256 (i2cPanel 32 0 0 127 1)).1 ∧
      speeds (display 256 (i2cPanel 32 0 0 127 1)).1 = [400000, 100000] := by
  have hb : InBounds (i2cPanel 32 0 0 127 1) 128 64 0 0 127 1 :=
    ⟨rfl, rfl, rfl, rfl, rfl, rfl, by decide, by decide, by decide, by decide⟩
  exact ⟨hb, (speed_bracketing (i2cPanel 32 0 0 127 1) 128 64 0 0 127 1 256 hb (by decide)
    (by decide) (by decide) (by decide)).1 ⟨32, true⟩ rfl⟩

/-! ## C9: termination -/

/-- C9 as stated fails, in each loop.  Row loop: on a 256x256 SPI panel with the dirty
region (0,0)..(0,255), `row_end` is 255 and the 8-bit `row` never exceeds it.  Chunk loop:
on an I2C device reporting `maxBufferSize() = 1` the chunk limit is 0 and
`bytes_remaining` never decreases.  In both cases `display()` does not return, whatever the
fuel. -/
theorem flush_terminates_counterexample :
    (∀ fuel : Nat, (display fuel { spiPanel 0 0 0 255 with HEIGHT := 256 }).2 = none) ∧
    (∀ fuel : Nat, (display fuel (i2cPanel 1 0 0 0 0)).2 = none) :=
  ⟨fun fuel => display_diverges _ (by decide) fuel,
   fun fuel => display_diverges _ (by decide) fuel⟩

/-- C9, amended to the states on which the loops finish.  `display()` returns exactly on
the states of `flushReturns`: no row to send (`row_end < row_start`), or `row_end < 255`
and either the chunk limit `maxbuff` is at least 1 or a row has no byte to send; there 256
units of fuel suffice.  In particular it returns whenever `maxbuff ≥ 1` and
`row_end < 255`. -/
theorem flush_terminates (d : Driver) :
    ((∃ fuel, (display fuel d).2.isSome = true) ↔ flushReturns d) ∧
    (flushReturns d → ∀ fuel, 256 ≤ fuel → (display fuel d).2 = some (resetWindow d)) ∧
    (1 ≤ maxbuff d → row_end d < 255 → flushReturns d) := by
  refine ⟨⟨?_, ?_⟩, fun h fuel hfuel => display_returns d h fuel hfuel, ?_⟩
  · rintro ⟨fuel, hfuel⟩
    by_contra hnot
    rw [display_diverges d hnot fuel] at hfuel
    cases hfuel
  · intro h
    exact ⟨256, by rw [display_returns d h 256 (Nat.le_refl _)]; rfl⟩
  · intro hm hend
    exact Or.inr ⟨hend, Or.inl hm⟩

/-- C9 at a concrete input: a 256x64 SPI panel, dirty region (5,1)..(17,2). -/
theorem flush_terminates_witness :
    flushReturns (spiPanel 5 1 17 2) ∧
    (display 256 (spiPanel 5 1 17 2)).2 = some (resetWindow (spiPanel 5 1 17 2)) :=
  ⟨by decide, (flush_terminates (spiPanel 5 1 17 2)).2.1 (by decide) 256 (by decide)⟩

/-! ## C10: failure of the window-programming step -/

section WriteOk

variable (d : Driver) (ok : Bool)

theorem maxbuff_withWriteOk : maxbuff (withWriteOk d ok) = maxbuff d := by
  unfold maxbuff withWriteOk
  cases d.i2c_dev <;> rfl

theorem dataWrite_withWriteOk (ptr n : Nat) :
    dataWrite (withWriteOk d ok) ptr n = dataWrite d ptr n := by
  unfold dataWrite withWriteOk
  cases d.i2c_dev <;> rfl

theorem setSpeed_withWriteOk (hz : Nat) : setSpeed (withWriteOk d ok) hz = setSpeed d hz := by
  unfold setSpeed withWriteOk
  cases d.i2c_dev <;> rfl

theorem chunkLoop_withWriteOk :
    ∀ (fuel ptr n : Nat), chunkLoop (withWriteOk d ok) fuel ptr n = chunkLoop d fuel ptr n := by
  intro fuel
  induction fuel with
  | zero => intro ptr n; rfl
  | succ fuel ih =>
    intro ptr n
    unfold chunkLoop
    simp only [maxbuff_withWriteOk, dataWrite_withWriteOk, ih]

theorem rowLoop_withWriteOk (cf : Nat) :
    ∀ (fuel row : Nat), rowLoop (withWriteOk d ok) cf fuel row = rowLoop d cf fuel row := by
  intro fuel
  induction fuel with
  | zero => intro row; rfl
  | succ fuel ih =>
    intro row
    unfold rowLoop
    simp only [chunkLoop_withWriteOk, ih]
    rfl

theorem displayHead_withWriteOk : displayHead (withWriteOk d ok) = displayHead d := by
  unfold displayHead
  rw [setSpeed_withWriteOk]
  rfl

end WriteOk

/-- C10 as stated fails: `display()` returns `void` and drops the booleans of the two
command helpers.  On a 256x64 SPI panel the helper reports `false` on the failing
transport and `true` on the working one, yet the events, the fact of returning and the
dirty region left behind are the same. -/
theorem window_failure_counterexample :
    (oled_commandAndArgsList (withWriteOk (spiPanel 0 0 7 0) false)
        (cmd (withWriteOk (spiPanel 0 0 7 0) false))).1 = false ∧
    (oled_commandAndArgsList (withWriteOk (spiPanel 0 0 7 0) true)
        (cmd (withWriteOk (spiPanel 0 0 7 0) true))).1 = true ∧
    (display 256 (withWriteOk (spiPanel 0 0 7 0) false)).1
      = (display 256 (withWriteOk (spiPanel 0 0 7 0) true)).1 ∧
    (display 256 (withWriteOk (spiPanel 0 0 7 0) false)).2.map dirtyRegion
      = some (1024, 1024, -1, -1) ∧
    (display 256 (withWriteOk (spiPanel 0 0 7 0) true)).2.map dirtyRegion
      = some (1024, 1024, -1, -1) := by
  decide

/-- C10, amended to what the code does.  The window-programming helpers report a transport
failure to their caller, `display()`, as a boolean; `display()` drops it and returns
nothing: for every state and fuel, the events it emits and whether it returns do not
depend on the transport writes succeeding, and the state it leaves differs only in the
transport itself. -/
theorem window_failure_ignored (d : Driver) (ok : Bool) (fuel : Nat) :
    (oled_commandAndArgsList d (cmd d)).1 = busWriteOk d ∧
    (oled_command d 0x5c).1 = busWriteOk d ∧
    (display fuel (withWriteOk d ok)).1 = (display fuel d).1 ∧
    (display fuel (withWriteOk d ok)).2 = (display fuel d).2.map (fun s => withWriteOk s ok) := by
  have hrow : rowLoop (withWriteOk d ok) fuel fuel (row_start (withWriteOk d ok))
      = rowLoop d fuel fuel (row_start d) := rowLoop_withWriteOk d ok fuel fuel _
  refine ⟨rfl, rfl, ?_, ?_⟩
  · cases h : (rowLoop d fuel fuel (row_start d)).2
    · rw [display_stuck fuel d h, display_stuck fuel _ (by rw [hrow]; exact h), hrow,
        displayHead_withWriteOk]
    · rw [display_done fuel d h, display_done fuel _ (by rw [hrow]; exact h), hrow,
        displayHead_withWriteOk, setSpeed_withWriteOk]
      rfl
  · cases h : (rowLoop d fuel fuel (row_start d)).2
    · rw [display_stuck fuel d h, display_stuck fuel _ (by rw [hrow]; exact h)]
      rfl
    · rw [display_done fuel d h, display_done fuel _ (by rw [hrow]; exact h)]
      rfl

/-! ## C11: clamping of the window -/

/-- C11 as stated fails: `x_start` is clamped from above only and `x_end` from below only.
On a 256x64 panel, `window_x1 = -1` gives `col_start = 255` (the 16-bit wrap of -1,
divided by 4, cut to 8 bits) where the claim gives `clamp(-1, 0, 255)/4 = 0`, and
`window_x2 = 300` gives `col_end = 75` where the claim gives `clamp(300, 0, 255)/4 = 63`. -/
theorem window_clamp_counterexample :
    col_start (spiPanel (-1) 0 7 0) = 255 ∧ clamp (-1) 0 (256 - 1) / 4 = 0 ∧
    col_end (spiPanel 0 0 300 0) = 75 ∧ clamp 300 0 (256 - 1) / 4 = 63 := by
  decide

/-- C11, amended to the one-sided clamps of the code: `window_x1`, `window_y1` are clamped
from above (`min` with `W-1`, `H-1`), `window_x2`, `window_y2` from below (`max` with 0).
For every display with `1 ≤ W ≤ 1024`, `1 ≤ H ≤ 256` and every dirty region with
`0 ≤ x1`, `0 ≤ y1` (both may lie beyond the display) and `x2 ≤ W-1`, `y2 ≤ H-1` (both may
be negative), all in the `int16_t` range, the window is `col_start = clamp(x1,0,W-1)/4`,
`col_end = clamp(x2,0,W-1)/4`, `row_start = clamp(y1,0,H-1)`, `row_end = clamp(y2,0,H-1)`.
This covers the in-bounds regions and the empty region `(1024, 1024, -1, -1)`. -/
theorem window_clamp (d : Driver)
    (hW1 : 1 ≤ d.WIDTH) (hW : d.WIDTH ≤ 1024) (hH1 : 1 ≤ d.HEIGHT) (hH : d.HEIGHT ≤ 256)
    (hx1 : 0 ≤ d.window_x1) (hx1' : d.window_x1 ≤ 32767)
    (hx2 : -32768 ≤ d.window_x2) (hx2' : d.window_x2 ≤ d.WIDTH - 1)
    (hy1 : 0 ≤ d.window_y1) (hy1' : d.window_y1 ≤ 32767)
    (hy2 : -32768 ≤ d.window_y2) (hy2' : d.window_y2 ≤ d.HEIGHT - 1) :
    (col_start d : Int) = clamp d.window_x1 0 (d.WIDTH - 1) / 4 ∧
    (col_end d : Int) = clamp d.window_x2 0 (d.WIDTH - 1) / 4 ∧
    (row_start d : Int) = clamp d.window_y1 0 (d.HEIGHT - 1) ∧
    (row_end d : Int) = clamp d.window_y2 0 (d.HEIGHT - 1) := by
  refine ⟨?_, ?_, ?_, ?_⟩
  · simp only [col_start, x_start, toUInt8, toUInt16, clamp]; omega
  · simp only [col_end, x_end, toUInt8, toUInt16, clamp]; omega
  · simp only [row_start, toUInt8, toInt16, clamp]; omega
  · simp only [row_end, toUInt8, toInt16, clamp]; omega

/-- C11 at a concrete input: the empty region on a 256x64 panel gives the columns
`(63, 0)` and the rows `(63, 0)`. -/
theorem window_clamp_witness :
    (col_start (spiPanel 1024 1024 (-1) (-1)) : Int) = clamp 1024 0 (256 - 1) / 4 ∧
    (col_end (spiPanel 1024 1024 (-1) (-1)) : Int) = clamp (-1) 0 (256 - 1) / 4 ∧
    (row_start (spiPanel 1024 1024 (-1) (-1)) : Int) = clamp 1024 0 (64 - 1) ∧
    (row_end (spiPanel 1024 1024 (-1) (-1)) : Int) = clamp (-1) 0 (64 - 1) :=
  window_clamp (spiPanel 1024 1024 (-1) (-1)) (by decide) (by decide) (by decide)
    (by decide) (by decide) (by decide) (by decide) (by decide) (by decide) (by decide)
    (by decide) (by decide)

/-! ## C12: `invertDisplay` -/

/-- C12 (`invertDisplay`).  For every prior state, `invertDisplay(i)` makes exactly one
call, the command write of the single byte 0xA7 when `i` is true and 0xA6 when `i` is
false; there is no data write, and the state after, with its frame buffer and dirty
region, is the state before. -/
theorem invertDisplay_command (d : Driver) (i : Bool) :
    (invertDisplay d i).1 = [Event.oled_command (if i then 0xa7 else 0xa6)] ∧
    commands (invertDisplay d i).1 = [[if i then 0xa7 else 0xa6]] ∧
    dataWrites (invertDisplay d i).1 = [] ∧
    (invertDisplay d i).2 = d ∧
    (invertDisplay d i).2.buffer = d.buffer ∧
    dirtyRegion (invertDisplay d i).2 = dirtyRegion d := by
  refine ⟨rfl, ?_, ?_, rfl, rfl, rfl⟩
  · simp [invertDisplay, oled_command, commands, commandsOf]
  · simp [invertDisplay, oled_command, dataWrites, dataRange]

/-! ## C13: `begin` -/

/-- The commands of the init table followed by display-on. -/
theorem commands_init_table :
    commands [Event._init 0 true, Event.oled_commandAndArgsList init_256x64, Event.delay 2,
      Event.oled_command 0xaf] =
      [[0xfd, 0x12], [0xae], [0xb3, 0x91], [0xca, 0x3f], [0xa2, 0x00], [0xa1, 0x00],
       [0xa0, 0x06, 0x11], [0xab, 0x01], [0xb4, 0xa0, 0xfd], [0xc1, 0x9f], [0xc7, 0x0f],
       [0xb9], [0xb1, 0xe2], [0xd1, 0xa2, 0x20], [0xbb, 0x1f], [0xb6, 0x08], [0xbe, 0x07],
       [0xa6], [0xa9], [0xaf]] := by
  decide

/-- The byte count of the `memset` for a display of `W × H` pixels, both in the positive
`int16_t` range. -/
theorem bufferSize_eq (d : Driver) (W H : Nat) (hW : d.WIDTH = (W : Int))
    (hH : d.HEIGHT = (H : Int)) (hW' : W ≤ 32767) (hH' : H ≤ 32767) :
    bufferSize d = _bpp * W * ((H + 7) / 8) := by
  have hq : (H + 7) / 8 ≤ 4096 := by omega
  have hprod : W * ((H + 7) / 8) ≤ 32767 * 4096 := Nat.mul_le_mul hW' hq
  have hdiv : Int.tdiv ((H : Int) + 7) 8 = (((H + 7) / 8 : Nat) : Int) := by
    rw [Int.tdiv_eq_ediv (by omega) (by omega)]
    omega
  have hcast : ((_bpp : Nat) : Int) * (W : Int) * (((H + 7) / 8 : Nat) : Int)
      = ((_bpp * W * ((H + 7) / 8) : Nat) : Int) := by
    push_cast; rfl
  have hlt : _bpp * W * ((H + 7) / 8) < 4294967296 := by
    have : _bpp * W * ((H + 7) / 8) = 4 * (W * ((H + 7) / 8)) := by
      simp only [_bpp, Nat.mul_assoc]
    omega
  simp only [bufferSize, toSizeT, hW, hH, hdiv, hcast]
  omega

/-- C13 (`begin`).  Whatever the base-layer `_init` does: when it fails, `begin` returns
false and sends no command; when it succeeds and the transmission of the init table fails,
`begin` returns false, the table call is its last event (no 0xAF is sent) and the buffer is
as `_init` left it; `begin` returns true exactly when both succeed, and then the events are
`_init`, the init table, the 2 ms delay and the single command 0xAF, the commands sent are
the records of the table in order followed by 0xAF, and the first
`bufferSize = _bpp * WIDTH * ((HEIGHT + 7) / 8)` bytes of the buffer are 0x00. -/
theorem begin_result (baseInit : Driver → Nat → Bool → Bool × Driver) (d : Driver)
    (addr : Nat) (reset : Bool) :
    ((baseInit d addr reset).1 = false →
      (begin baseInit d addr reset).2.1 = false ∧
      commands (begin baseInit d addr reset).1 = []) ∧
    ((baseInit d addr reset).1 = true → busWriteOk (baseInit d addr reset).2 = false →
      (begin baseInit d addr reset).2.1 = false ∧
      (begin baseInit d addr reset).1 =
        [Event._init addr reset, Event.oled_commandAndArgsList init_256x64] ∧
      (begin baseInit d addr reset).2.2.buffer = (baseInit d addr reset).2.buffer) ∧
    ((begin baseInit d addr reset).2.1 = true ↔
      ((baseInit d addr reset).1 = true ∧ busWriteOk (baseInit d addr reset).2 = true)) ∧
    ((baseInit d addr reset).1 = true → busWriteOk (baseInit d addr reset).2 = true →
      (begin baseInit d addr reset).1 =
        [Event._init addr reset, Event.oled_commandAndArgsList init_256x64, Event.delay 2,
          Event.oled_command 0xaf] ∧
      commands (begin baseInit d addr reset).1 =
        commandRecords init_256x64.length init_256x64 ++ [[0xaf]] ∧
      (∀ j, j < bufferSize (baseInit d addr reset).2 →
        (begin baseInit d addr reset).2.2.buffer j = 0x00) ∧
      (∀ W H : Nat, (baseInit d addr reset).2.WIDTH = (W : Int) →
        (baseInit d addr reset).2.HEIGHT = (H : Int) → W ≤ 32767 → H ≤ 32767 →
        bufferSize (baseInit d addr reset).2 = _bpp * W * ((H + 7) / 8))) := by
  have hbus : busWriteOk { (baseInit d addr reset).2 with page_offset := 0 }
      = busWriteOk (baseInit d addr reset).2 := rfl
  have hsize : bufferSize { (baseInit d addr reset).2 with page_offset := 0 }
      = bufferSize (baseInit d addr reset).2 := rfl
  rcases Bool.eq_false_or_eq_true (baseInit d addr reset).1 with hi | hi
  · rcases Bool.eq_false_or_eq_true (busWriteOk (baseInit d addr reset).2) with hw | hw
    · refine ⟨fun h => ?_, fun _ h => ?_, ?_, fun _ _ => ⟨?_, ?_, ?_, ?_⟩⟩
      · rw [hi] at h; cases h
      · rw [hw] at h; cases h
      · simp [begin, hi, oled_commandAndArgsList, hbus, hw]
      · simp [begin, hi, oled_commandAndArgsList, oled_command, hbus, hw]
      · simp [begin, hi, oled_commandAndArgsList, oled_command, hbus, hw, commands,
          commandsOf]
      · intro j hj
        simp [begin, hi, oled_commandAndArgsList, hbus, hw, memset, hsize, hj]
      · intro W H hW hH hW' hH'
        exact bufferSize_eq _ W H hW hH hW' hH'
    · refine ⟨fun h => ?_, fun _ _ => ?_, ?_, fun _ h => ?_⟩
      · rw [hi] at h; cases h
      · simp [begin, hi, oled_commandAndArgsList, hbus, hw]
      · simp [begin, hi, oled_commandAndArgsList, hbus, hw]
      · rw [hw] at h; cases h
  · refine ⟨fun _ => ?_, fun h => ?_, ?_, fun h => ?_⟩
    · simp [begin, hi, commands, commandsOf]
    · rw [hi] at h; cases h
    · simp [begin, hi]
    · rw [hi] at h; cases h

/-- C13 at a concrete input: a 256x64 SPI panel whose `_init` and transport succeed; the
buffer size is 4 * 256 * 8 = 8192 bytes.  With a failing `_init`, `begin` returns false. -/
theorem begin_result_witness :
    (initOk (spiPanel 0 0 7 0) 0x3d true).1 = true ∧
    busWriteOk (initOk (spiPanel 0 0 7 0) 0x3d true).2 = true ∧
    (begin initOk (spiPanel 0 0 7 0) 0x3d true).1 =
      [Event._init 0x3d true, Event.oled_commandAndArgsList init_256x64, Event.delay 2,
        Event.oled_command 0xaf] ∧
    (begin initOk (spiPanel 0 0 7 0) 0x3d true).2.1 = true ∧
    bufferSize (initOk (spiPanel 0 0 7 0) 0x3d true).2 = 8192 ∧
    (initFails (spiPanel 0 0 7 0) 0x3d true).1 = false ∧
    (begin initFails (spiPanel 0 0 7 0) 0x3d true).2.1 = false :=
  ⟨rfl, rfl,
   ((begin_result initOk (spiPanel 0 0 7 0) 0x3d true).2.2.2 rfl rfl).1,
   (begin_result initOk (spiPanel 0 0 7 0) 0x3d true).2.2.1.2 ⟨rfl, rfl⟩,
   ((begin_result initOk (spiPanel 0 0 7 0) 0x3d true).2.2.2 rfl rfl).2.2.2 256 64 rfl rfl
     (by decide) (by decide),
   rfl,
   ((begin_result initFails (spiPanel 0 0 7 0) 0x3d true).1 rfl).1⟩

/-! ## C14: the window is programmed before any data -/

/-- The events of `displayHead` are those before begin-write, then begin-write. -/
theorem displayHead_split (d : Driver) :
    displayHead d =
      (Event.yield :: setSpeed d d.i2c_preclk ++ [Event.oled_commandAndArgsList (cmd d)])
        ++ [Event.oled_command 0x5c] := by
  simp [displayHead, oled_commandAndArgsList, oled_command]

/-- The trace of `display()` after `displayHead`: stream events, then at most the idle
clock. -/
theorem display_tail (fuel : Nat) (d : Driver) :
    ∃ post, (display fuel d).1 = displayHead d ++ post ∧ commands post = [] ∧
      dataWrites post = dataWrites (display fuel d).1 := by
  have hrows := commands_of_stream _ (rowLoop_stream d fuel fuel (row_start d))
  cases h : (rowLoop d fuel fuel (row_start d)).2
  · refine ⟨(rowLoop d fuel fuel (row_start d)).1, by rw [display_stuck fuel d h], hrows, ?_⟩
    rw [dataWrites_display]
  · refine ⟨(rowLoop d fuel fuel (row_start d)).1 ++ setSpeed d d.i2c_postclk,
      by rw [display_done fuel d h, List.append_assoc], ?_, ?_⟩
    · rw [commands_append, hrows, commands_setSpeed]; rfl
    · rw [dataWrites_display, dataWrites_append, dataWrites_setSpeed, List.append_nil]

/-- C14 (window before data).  For every state, transport and fuel, so in particular when
`display()` returns: the commands of the trace are exactly three, with the opcodes 0x75,
0x15, 0x5C in this order, each once; the trace splits at the begin-write command 0x5C into
a part before it that holds the two window commands and no data write, and a part after it
that holds all the data writes and no command. -/
theorem window_before_data (fuel : Nat) (d : Driver) :
    commands (display fuel d).1 =
      [[0x75, row_start d, row_end d],
       [0x15, toUInt8 (28 + (col_start d : Int)), toUInt8 (28 + (col_end d : Int))],
       [0x5c]] ∧
    (commands (display fuel d).1).map List.head? = [some 0x75, some 0x15, some 0x5c] ∧
    ∃ pre post, (display fuel d).1 = pre ++ Event.oled_command 0x5c :: post ∧
      dataWrites pre = [] ∧
      commands pre = [[0x75, row_start d, row_end d],
        [0x15, toUInt8 (28 + (col_start d : Int)), toUInt8 (28 + (col_end d : Int))]] ∧
      commands post = [] ∧
      dataWrites post = dataWrites (display fuel d).1 := by
  have hcmd := commands_display fuel d
  refine ⟨hcmd, by rw [hcmd]; rfl, ?_⟩
  obtain ⟨post, htrace, hpost, hdata⟩ := display_tail fuel d
  refine ⟨Event.yield :: setSpeed d d.i2c_preclk ++ [Event.oled_commandAndArgsList (cmd d)],
    post, ?_, ?_, ?_, hpost, hdata⟩
  · rw [htrace, displayHead_split, List.append_assoc]
    rfl
  · have hs := dataWrites_setSpeed d d.i2c_preclk
    rw [← List.singleton_append, List.append_assoc, dataWrites_append, dataWrites_append, hs]
    rfl
  · have hs := commands_setSpeed d d.i2c_preclk
    rw [← List.singleton_append, List.append_assoc, commands_append, commands_append, hs]
    simp [commands, commandsOf, cmd, commandRecords]

/-! ## C15: the flush reads the frame buffer and the geometry only -/

/-- C15 (flush is read-only on buffer and geometry).  For every state, transport and fuel
for which `display()` returns, the frame buffer, `WIDTH`, `HEIGHT` and the two configured
I2C clock rates are the same after as before, and the state after is the state before with
only the four fields of the dirty region replaced.  It does return, with 256 units of fuel,
on every state of `flushReturns`. -/
theorem flush_read_only (d : Driver) :
    (∀ fuel d', (display fuel d).2 = some d' →
      d'.buffer = d.buffer ∧ d'.WIDTH = d.WIDTH ∧ d'.HEIGHT = d.HEIGHT ∧
      d'.i2c_preclk = d.i2c_preclk ∧ d'.i2c_postclk = d.i2c_postclk ∧
      d' = { d with window_x1 := d'.window_x1, window_y1 := d'.window_y1,
                    window_x2 := d'.window_x2, window_y2 := d'.window_y2 }) ∧
    (flushReturns d → ∀ fuel, 256 ≤ fuel → ∃ d', (display fuel d).2 = some d') := by
  refine ⟨?_, fun hr fuel hfuel => ⟨resetWindow d, display_returns d hr fuel hfuel⟩⟩
  intro fuel d' h
  cases hdone : (rowLoop d fuel fuel (row_start d)).2
  · rw [display_stuck fuel d hdone] at h; cases h
  · rw [display_done fuel d hdone] at h
    simp only [Option.some.injEq] at h
    subst h
    exact ⟨rfl, rfl, rfl, rfl, rfl, rfl⟩

/-- C15 at a concrete input: two dirty rows on a 128x64 I2C panel; the buffer after the
flush is the buffer before. -/
theorem flush_read_only_witness :
    flushReturns (i2cPanel 32 0 0 127 1) ∧
    ∃ d', (display 256 (i2cPanel 32 0 0 127 1)).2 = some d' ∧
      d'.buffer = (i2cPanel 32 0 0 127 1).buffer := by
  obtain ⟨d', hd'⟩ := (flush_read_only (i2cPanel 32 0 0 127 1)).2 (by decide) 256 (by decide)
  exact ⟨by decide, d', hd', ((flush_read_only (i2cPanel 32 0 0 127 1)).1 256 d' hd').1⟩

/-! ## C16: cooperative yielding -/

theorem dataWrites_block (d : Driver) (p n : Nat) (t : List Event) :
    dataWrites (dataWrite d p n ++ Event.yield :: t) = (p, n) :: dataWrites t := by
  rw [dataWrites_append, dataWrites_dataWrite]
  simp [dataWrites, dataRange]

theorem chunkBlocks_cons (d : Driver) (w : Nat × Nat) (ws : List (Nat × Nat)) :
    chunkBlocks d (w :: ws) = dataWrite d w.1 w.2 ++ Event.yield :: chunkBlocks d ws := by
  simp [chunkBlocks]

theorem chunkBlocks_append (d : Driver) (a b : List (Nat × Nat)) :
    chunkBlocks d (a ++ b) = chunkBlocks d a ++ chunkBlocks d b := by
  simp [chunkBlocks]

/-- The chunk loop emits its data writes each followed by one yield, and nothing else. -/
theorem chunkLoop_blocks (d : Driver) :
    ∀ (fuel ptr n : Nat),
      (chunkLoop d fuel ptr n).1 = chunkBlocks d (dataWrites (chunkLoop d fuel ptr n).1) := by
  intro fuel
  induction fuel with
  | zero => intro ptr n; simp [chunkLoop, dataWrites, chunkBlocks]
  | succ fuel ih =>
    intro ptr n
    unfold chunkLoop
    by_cases h : n = 0
    · simp [h, dataWrites, chunkBlocks]
    · simp only [h, if_false]
      rw [dataWrites_block, chunkBlocks_cons, ← ih]

theorem rowLoop_blocks (d : Driver) (cf : Nat) :
    ∀ (fuel row : Nat),
      (rowLoop d cf fuel row).1 = chunkBlocks d (dataWrites (rowLoop d cf fuel row).1) := by
  intro fuel
  induction fuel with
  | zero => intro row; simp [rowLoop, dataWrites, chunkBlocks]
  | succ fuel ih =>
    intro row
    unfold rowLoop
    by_cases hrow : row ≤ row_end d
    · cases hc : (chunkLoop d cf (rowPtr d row) (rowBytes d)).2
      · simp only [hrow, if_true, hc]
        exact chunkLoop_blocks d cf _ _
      · simp only [hrow, if_true, hc]
        rw [dataWrites_append, chunkBlocks_append, ← ih, ← chunkLoop_blocks]
    · simp [hrow, dataWrites, chunkBlocks]

theorem yieldAfterWrite_append_left (pre t : List Event)
    (h : ∀ e ∈ pre, isDataWrite e = false) :
    yieldAfterWrite (pre ++ t) = yieldAfterWrite t := by
  induction pre with
  | nil => rfl
  | cons e pre ih =>
    have he := h e (List.mem_cons_self _ _)
    have hrest := ih (fun e' he' => h e' (List.mem_cons_of_mem _ he'))
    simp [yieldAfterWrite, he, hrest]

theorem yieldAfterWrite_block (d : Driver) (p n : Nat) (t : List Event)
    (hhead : t.head? ≠ some Event.yield) (ht : yieldAfterWrite t = true) :
    yieldAfterWrite (dataWrite d p n ++ Event.yield :: t) = true := by
  unfold dataWrite
  cases d.i2c_dev <;>
    simp [yieldAfterWrite, isDataWrite, dataRange, hhead, ht]

theorem head_block (d : Driver) (p n : Nat) (t : List Event) :
    (dataWrite d p n ++ t).head? ≠ some Event.yield := by
  unfold dataWrite
  cases d.i2c_dev <;> simp

theorem yieldAfterWrite_blocks (d : Driver) (tail : List Event)
    (hhead : tail.head? ≠ some Event.yield) (ht : yieldAfterWrite tail = true) :
    ∀ ws : List (Nat × Nat),
      (chunkBlocks d ws ++ tail).head? ≠ some Event.yield ∧
      yieldAfterWrite (chunkBlocks d ws ++ tail) = true := by
  intro ws
  induction ws with
  | nil => exact ⟨by simpa [chunkBlocks] using hhead, by simpa [chunkBlocks] using ht⟩
  | cons w ws ih =>
    rw [chunkBlocks_cons, List.append_assoc]
    refine ⟨head_block d w.1 w.2 _, ?_⟩
    rw [List.cons_append]
    exact yieldAfterWrite_block d w.1 w.2 _ ih.1 ih.2

theorem setSpeed_no_yield (d : Driver) (hz : Nat) :
    Event.yield ∉ setSpeed d hz ∧ (setSpeed d hz).head? ≠ some Event.yield ∧
    yieldAfterWrite (setSpeed d hz) = true ∧ List.count Event.yield (setSpeed d hz) = 0 := by
  unfold setSpeed
  cases d.i2c_dev <;> simp [yieldAfterWrite, isDataWrite, dataRange]

theorem count_yield_blocks (d : Driver) (ws : List (Nat × Nat)) :
    List.count Event.yield (chunkBlocks d ws) = ws.length := by
  induction ws with
  | nil => simp [chunkBlocks]
  | cons w ws ih =>
    have hw : List.count Event.yield (dataWrite d w.1 w.2) = 0 := by
      unfold dataWrite
      cases d.i2c_dev <;> simp
    rw [chunkBlocks_cons, List.count_append, hw, List.count_cons_self, ih,
      List.length_cons]
    omega

/-- The trace of `display()`: the first yield, the events up to begin-write, the data
writes each followed by a yield, and the closing events. -/
theorem display_blocks (fuel : Nat) (d : Driver) :
    ∃ tail, (display fuel d).1 =
        displayHead d ++ chunkBlocks d (dataWrites (display fuel d).1) ++ tail ∧
      Event.yield ∉ tail ∧ dataWrites tail = [] ∧ tail.head? ≠ some Event.yield ∧
      yieldAfterWrite tail = true ∧ List.count Event.yield tail = 0 := by
  have hb := rowLoop_blocks d fuel fuel (row_start d)
  have hs := setSpeed_no_yield d d.i2c_postclk
  cases h : (rowLoop d fuel fuel (row_start d)).2
  · refine ⟨[], ?_, by simp, rfl, by simp, rfl, rfl⟩
    rw [dataWrites_display, ← hb, display_stuck fuel d h, List.append_nil]
  · refine ⟨setSpeed d d.i2c_postclk, ?_, hs.1, dataWrites_setSpeed d _, hs.2.1, hs.2.2.1,
      hs.2.2.2⟩
    rw [dataWrites_display, ← hb, display_done fuel d h]

/-- C16 (cooperative yielding).  For every state, transport and fuel, so in particular
when `display()` returns: the trace is one yield, then the events up to begin-write (no
yield, no data write among them), then the data writes each followed by one yield, then
the closing events (no yield, no data write); every data write is immediately followed by
a yield and that yield is not followed by another one; the number of yields is 1 plus the
number of data writes. -/
theorem cooperative_yield (fuel : Nat) (d : Driver) :
    (∃ rest tail, (display fuel d).1 =
        Event.yield :: rest ++ chunkBlocks d (dataWrites (display fuel d).1) ++ tail ∧
      Event.yield ∉ rest ∧ dataWrites rest = [] ∧
      Event.yield ∉ tail ∧ dataWrites tail = []) ∧
    yieldAfterWrite (display fuel d).1 = true ∧
    List.count Event.yield (display fuel d).1 = 1 + (dataWrites (display fuel d).1).length := by
  obtain ⟨tail, htrace, hty, htd, hth, htw, htc⟩ := display_blocks fuel d
  have hpre := setSpeed_no_yield d d.i2c_preclk
  have hrest : displayHead d = Event.yield ::
      (setSpeed d d.i2c_preclk ++
        [Event.oled_commandAndArgsList (cmd d), Event.oled_command 0x5c]) := by
    simp [displayHead, oled_commandAndArgsList, oled_command]
  have hheadData : ∀ e ∈ displayHead d, isDataWrite e = false := by
    intro e he
    rw [hrest] at he
    simp only [List.mem_cons, List.mem_append, List.mem_singleton, List.not_mem_nil,
      or_false] at he
    rcases he with he | he | he | he
    · subst he; rfl
    · unfold setSpeed at he
      cases hd : d.i2c_dev <;> simp [hd] at he
      subst he; rfl
    · subst he; rfl
    · subst he; rfl
  refine ⟨⟨setSpeed d d.i2c_preclk ++
      [Event.oled_commandAndArgsList (cmd d), Event.oled_command 0x5c], tail, ?_, ?_, ?_,
      hty, htd⟩, ?_, ?_⟩
  · rw [← hrest]; exact htrace
  · simp [hpre.1]
  · rw [dataWrites_append, dataWrites_setSpeed]; rfl
  · rw [htrace, List.append_assoc, yieldAfterWrite_append_left _ _ hheadData]
    exact (yieldAfterWrite_blocks d tail hth htw _).2
  · have hcount : List.count Event.yield (displayHead d) = 1 := by
      rw [hrest, List.count_cons_self, List.count_append, hpre.2.2.2]
      simp
    conv_lhs => rw [htrace]
    rw [List.count_append, List.count_append, hcount, count_yield_blocks, htc,
      Nat.add_zero]

/-! ## C17: buffer reads stay in bounds -/

/-- The chunk loop started at `ptr` with `n` bytes to go reads inside `[ptr, ptr + n)`. -/
theorem chunkLoop_range (d : Driver) :
    ∀ (fuel ptr n : Nat), n < 256 → ∀ w ∈ dataWrites (chunkLoop d fuel ptr n).1,
      ptr ≤ w.1 ∧ w.1 + w.2 ≤ ptr + n := by
  intro fuel
  induction fuel with
  | zero => intro ptr n _ w hw; simp [chunkLoop, dataWrites] at hw
  | succ fuel ih =>
    intro ptr n hn w hw
    unfold chunkLoop at hw
    by_cases h : n = 0
    · simp [h, dataWrites] at hw
    · simp only [h, if_false] at hw
      have hsub : toUInt8 ((n : Int) - ((min n (maxbuff d) : Nat) : Int))
          = n - min n (maxbuff d) := by
        simp only [toUInt8]; omega
      rw [dataWrites_block, hsub, List.mem_cons] at hw
      rcases hw with hw | hw
      · subst hw
        simp only
        omega
      · have := ih (ptr + min n (maxbuff d)) (n - min n (maxbuff d)) (by omega) w hw
        omega

/-- With a last row below 255, every data write of the row loop started at `row` reads
inside the byte range of one of the rows `row, ..., row_end`. -/
theorem rowLoop_range (d : Driver) (cf : Nat) (hend : row_end d < 255) :
    ∀ (fuel row : Nat), ∀ w ∈ dataWrites (rowLoop d cf fuel row).1,
      ∃ r, row ≤ r ∧ r ≤ row_end d ∧ rowPtr d r ≤ w.1 ∧
        w.1 + w.2 ≤ rowPtr d r + rowBytes d := by
  intro fuel
  induction fuel with
  | zero => intro row w hw; simp [rowLoop, dataWrites] at hw
  | succ fuel ih =>
    intro row w hw
    unfold rowLoop at hw
    by_cases hrow : row ≤ row_end d
    · have hchunk := chunkLoop_range d cf (rowPtr d row) (rowBytes d) (rowBytes_lt d)
      have hnext : toUInt8 ((row : Int) + 1) = row + 1 := by
        simp only [toUInt8]; omega
      cases hc : (chunkLoop d cf (rowPtr d row) (rowBytes d)).2
      · simp only [hrow, if_true, hc] at hw
        have := hchunk w (by simpa using hw)
        exact ⟨row, Nat.le_refl _, hrow, this.1, this.2⟩
      · simp only [hrow, if_true, hc, hnext] at hw
        rw [dataWrites_append, List.mem_append] at hw
        rcases hw with hw | hw
        · have := hchunk w hw
          exact ⟨row, Nat.le_refl _, hrow, this.1, this.2⟩
        · obtain ⟨r, hr1, hr2, hr3, hr4⟩ := ih (row + 1) w hw
          exact ⟨r, by omega, hr2, hr3, hr4⟩
    · simp [hrow, dataWrites] at hw

/-- The bytes of the rows fit in the buffer of `_bpp * W * ((H + 7) / 8)` bytes. -/
theorem rows_le_bufferSize (W H : Nat) : (W / 2) * H ≤ _bpp * W * ((H + 7) / 8) := by
  have h1 : H ≤ 8 * ((H + 7) / 8) := by omega
  have h2 : 2 * (W / 2) ≤ W := by omega
  calc (W / 2) * H ≤ (W / 2) * (8 * ((H + 7) / 8)) := Nat.mul_le_mul_left _ h1
    _ = 4 * (2 * (W / 2)) * ((H + 7) / 8) := by ring
    _ ≤ 4 * W * ((H + 7) / 8) :=
        Nat.mul_le_mul_right _ (Nat.mul_le_mul_left _ h2)

/-- C17 (buffer reads stay in bounds).  For every display whose width `W` is a multiple of
4 with `W ≤ 256` and whose height is `H ≤ 255`, every in-bounds dirty region, every chunk
limit and every fuel, every data write of `display()`, reading `[off, off + len)`, stays
inside one row of the window: there is a row `y1 ≤ row ≤ y2` with
`row*(W/2) ≤ off` and `off + len ≤ (row+1)*(W/2)`; so `off + len ≤ (W/2)*H`, which is at
most the buffer size `_bpp * W * ((H + 7) / 8)` with `_bpp = 4`. -/
theorem reads_in_bounds (d : Driver) (W H x1 y1 x2 y2 fuel : Nat)
    (hb : InBounds d W H x1 y1 x2 y2) (hW4 : W % 4 = 0) (hW : W ≤ 256) (hH : H ≤ 255)
    (w : Nat × Nat) (hw : w ∈ dataWrites (display fuel d).1) :
    (∃ row, y1 ≤ row ∧ row ≤ y2 ∧ row * (W / 2) ≤ w.1 ∧ w.1 + w.2 ≤ (row + 1) * (W / 2)) ∧
    w.1 + w.2 ≤ (W / 2) * H ∧
    (W / 2) * H ≤ _bpp * W * ((H + 7) / 8) ∧ _bpp = 4 := by
  have hxle := hb.x_le
  have hxlt := hb.x_lt
  have hylt := hb.y_lt
  have hre := row_end_eq hb (by omega : H ≤ 256)
  have hrs := row_start_eq hb (by omega : H ≤ 256)
  rw [dataWrites_display] at hw
  obtain ⟨r, hr1, hr2, hr3, hr4⟩ :=
    rowLoop_range d fuel (by omega) fuel (row_start d) w hw
  rw [rowPtr_eq hb hW, rowBytes_eq hb hW] at hr4
  rw [rowPtr_eq hb hW] at hr3
  rw [hrs] at hr1
  rw [hre] at hr2
  have hrow : w.1 + w.2 ≤ (r + 1) * (W / 2) := by
    rw [Nat.succ_mul]
    omega
  have hall : (r + 1) * (W / 2) ≤ (W / 2) * H := by
    rw [Nat.mul_comm (W / 2) H]
    exact Nat.mul_le_mul_right _ (by omega)
  exact ⟨⟨r, hr1, hr2, by omega, hrow⟩, Nat.le_trans hrow hall, rows_le_bufferSize W H, rfl⟩

/-- C17 at a concrete input: a 128x64 I2C panel with `maxBufferSize() = 32`, two dirty
full rows; the last data write reads `[126, 128)`, inside row 1 and inside the buffer. -/
theorem reads_in_bounds_witness :
    InBounds (i2cPanel 32 0 0 127 1) 128 64 0 0 127 1 ∧
    (126, 2) ∈ dataWrites (display 256 (i2cPanel 32 0 0 127 1)).1 ∧
    126 + 2 ≤ (128 / 2) * 64 := by
  have hb : InBounds (i2cPanel 32 0 0 127 1) 128 64 0 0 127 1 := by decide
  have hw : ((126, 2) : Nat × Nat) ∈ dataWrites (display 256 (i2cPanel 32 0 0 127 1)).1 := by
    decide
  exact ⟨hb, hw, (reads_in_bounds (i2cPanel 32 0 0 127 1) 128 64 0 0 127 1 256 hb
    (by decide) (by decide) (by decide) (126, 2) hw).2.1⟩

end Adafruit_SSD1322
